import Mathlib

/-!
pulumi-ccstatusline: cache, invalidation and data refresh

A shallow embedding of `pulumi.go` (the snapshot store `cacheFilePath` /
`readCache` / `writeCache`, the orchestrator `getPulumiData`, the acquisition
steps `fillStackListData` / `fillHistoryStatus`, and the helpers
`extractStackName` / `readProjectName` / `workspaceMtime`) together with the
theorems that settle the specification's testable properties.

Conventions of the embedding

* A Go `string` is a sequence of bytes (`GoString`); it need not be valid UTF-8.
* A `time.Time` is the instant it denotes, in nanoseconds since the Unix epoch;
  the zone and the monotonic reading are not modelled.
* Effects are explicit: the file system, the wall clock and the record of
  subprocess invocations form a `World` that the functions pass along.
* The decoders of the standard library (`json.Unmarshal`, `time.Parse`) are
  the fields of a `GoLib` record, and `GoLib.Lawful` states what the theorems
  about the cache take from the documentation of `encoding/json`; the JSON
  encoder, SHA-256, `filepath.Join`, `strings.Split` and `strings.TrimSpace`
  are defined concretely.
* `refLib` is a library of concrete decoders; it is shown to be lawful
  (`refLib_lawful`), and the theorems are instantiated with it.
-/

namespace PulumiStatusline

/-! ## Go strings -/

/-- A Go string: an arbitrary sequence of bytes. -/
abbrev GoString := List UInt8

/-- The bytes of a string literal (its UTF-8 encoding). -/
def str (s : String) : GoString := s.data.flatMap String.utf8EncodeChar

/-- Go `strings.Split(s, sep)` for a separator of one byte (both call sites of
the program use one: a slash and a newline). The result is never empty. -/
def stringsSplit (sep : UInt8) : GoString → List GoString
  | [] => [[]]
  | c :: cs =>
    if c = sep then [] :: stringsSplit sep cs
    else
      match stringsSplit sep cs with
      | [] => [[c]]
      | p :: ps => (c :: p) :: ps

/-- Go `strings.CutPrefix(s, prefix)`: the rest of `s` after `prefix`, when
`s` starts with it. -/
def stringsCutPrefix : GoString → GoString → Option GoString
  | s, [] => some s
  | [], _ :: _ => none
  | c :: cs, p :: ps => if c = p then stringsCutPrefix cs ps else none

/-- The length of the UTF-8 encoding of a white-space rune (Go
`unicode.IsSpace`) at the front of `s`, or zero when `s` does not start with
one: tab, line feed, vertical tab, form feed, carriage return, space, U+0085,
U+00A0, U+1680, U+2000 to U+200A, U+2028, U+2029, U+202F, U+205F, U+3000. -/
def spaceRuneLen : GoString → Nat
  | 0x09 :: _ => 1
  | 0x0a :: _ => 1
  | 0x0b :: _ => 1
  | 0x0c :: _ => 1
  | 0x0d :: _ => 1
  | 0x20 :: _ => 1
  | 0xc2 :: 0x85 :: _ => 2
  | 0xc2 :: 0xa0 :: _ => 2
  | 0xe1 :: 0x9a :: 0x80 :: _ => 3
  | 0xe2 :: 0x80 :: b :: _ =>
    if (0x80 ≤ b ∧ b ≤ 0x8a) ∨ b = 0xa8 ∨ b = 0xa9 ∨ b = 0xaf then 3 else 0
  | 0xe2 :: 0x81 :: 0x9f :: _ => 3
  | 0xe3 :: 0x80 :: 0x80 :: _ => 3
  | _ => 0

/-- Same as `spaceRuneLen` for a white-space rune at the END of the string whose
bytes are given last byte first. -/
def spaceRuneLenRev : GoString → Nat
  | 0x09 :: _ => 1
  | 0x0a :: _ => 1
  | 0x0b :: _ => 1
  | 0x0c :: _ => 1
  | 0x0d :: _ => 1
  | 0x20 :: _ => 1
  | 0x85 :: 0xc2 :: _ => 2
  | 0xa0 :: 0xc2 :: _ => 2
  | 0x80 :: 0x9a :: 0xe1 :: _ => 3
  | 0x9f :: 0x81 :: 0xe2 :: _ => 3
  | 0x80 :: 0x80 :: 0xe3 :: _ => 3
  | b :: 0x80 :: 0xe2 :: _ =>
    if (0x80 ≤ b ∧ b ≤ 0x8a) ∨ b = 0xa8 ∨ b = 0xa9 ∨ b = 0xaf then 3 else 0
  | _ => 0

/-- Strip white-space runes from the front, at most `fuel` of them. -/
def trimFront (len : GoString → Nat) : Nat → GoString → GoString
  | 0, s => s
  | fuel + 1, s => if len s = 0 then s else trimFront len fuel (s.drop (len s))

/-- Go `strings.TrimSpace`: the string without its leading and trailing
white-space runes. -/
def stringsTrimSpace (s : GoString) : GoString :=
  let t := trimFront spaceRuneLen s.length s
  (trimFront spaceRuneLenRev t.length t.reverse).reverse

/-! ## extractStackName and readProjectName -/

/-- The program's `extractStackName`: `parts := strings.Split(name, "/")`, then
`parts[len(parts)-1]`. The index expression is `getLast?`, so an out-of-range
index would show as `none`. -/
def extractStackName (name : GoString) : Option GoString :=
  (stringsSplit 0x2f name).getLast?

/-- The loop of `readProjectName` over the lines of the file. -/
def readProjectNameLines : List GoString → GoString
  | [] => []
  | line :: rest =>
    match stringsCutPrefix (stringsTrimSpace line) (str "name:") with
    | some val => stringsTrimSpace val
    | none => readProjectNameLines rest

/-! ## Paths -/

/-- One step of Go `filepath.Clean` over the elements of a path; `stack` holds
the elements kept so far, the last one first. Empty elements and `.` are
dropped; `..` removes the element before it, is dropped at the root, and is
kept at the front of a relative path. -/
def cleanStep (rooted : Bool) (stack : List GoString) (elem : GoString) : List GoString :=
  if elem = [] ∨ elem = str "." then stack
  else if elem = str ".." then
    match stack with
    | [] => if rooted then [] else [elem]
    | top :: rest => if top = str ".." then elem :: stack else rest
  else elem :: stack

/-- Go `filepath.Clean` on a Unix system. -/
def filepathClean (path : GoString) : GoString :=
  let rooted := path.head? = some 0x2f
  let kept := ((stringsSplit 0x2f path).foldl (cleanStep rooted) []).reverse
  if rooted then 0x2f :: [0x2f].intercalate kept
  else if kept = [] then str "."
  else [0x2f].intercalate kept

/-- Go `filepath.Join`: leading empty elements are ignored, the rest is joined
with slashes and cleaned; the result is empty when every element is. -/
def filepathJoin (elems : List GoString) : GoString :=
  match elems.dropWhile (fun e => e = []) with
  | [] => []
  | rest => filepathClean ([0x2f].intercalate rest)

/-! ## SHA-256 (`crypto/sha256`) and `%x` -/

/-- The round constants of SHA-256. -/
def sha256K : List Nat :=
  [0x428a2f98, 0x71374491, 0xb5c0fbcf, 0xe9b5dba5, 0x3956c25b, 0x59f111f1, 0x923f82a4, 0xab1c5ed5,
   0xd807aa98, 0x12835b01, 0x243185be, 0x550c7dc3, 0x72be5d74, 0x80deb1fe, 0x9bdc06a7, 0xc19bf174,
   0xe49b69c1, 0xefbe4786, 0x0fc19dc6, 0x240ca1cc, 0x2de92c6f, 0x4a7484aa, 0x5cb0a9dc, 0x76f988da,
   0x983e5152, 0xa831c66d, 0xb00327c8, 0xbf597fc7, 0xc6e00bf3, 0xd5a79147, 0x06ca6351, 0x14292967,
   0x27b70a85, 0x2e1b2138, 0x4d2c6dfc, 0x53380d13, 0x650a7354, 0x766a0abb, 0x81c2c92e, 0x92722c85,
   0xa2bfe8a1, 0xa81a664b, 0xc24b8b70, 0xc76c51a3, 0xd192e819, 0xd6990624, 0xf40e3585, 0x106aa070,
   0x19a4c116, 0x1e376c08, 0x2748774c, 0x34b0bcb5, 0x391c0cb3, 0x4ed8aa4a, 0x5b9cca4f, 0x682e6ff3,
   0x748f82ee, 0x78a5636f, 0x84c87814, 0x8cc70208, 0x90befffa, 0xa4506ceb, 0xbef9a3f7, 0xc67178f2]

/-- The eight 32-bit words of the SHA-256 chaining value. -/
structure Sha256State where
  a : Nat
  b : Nat
  c : Nat
  d : Nat
  e : Nat
  f : Nat
  g : Nat
  h : Nat
  deriving DecidableEq, Repr

/-- The initial chaining value. -/
def sha256Init : Sha256State :=
  ⟨0x6a09e667, 0xbb67ae85, 0x3c6ef372, 0xa54ff53a, 0x510e527f, 0x9b05688c, 0x1f83d9ab, 0x5be0cd19⟩

/-- Rotate a 32-bit word right by `n` bits. -/
def rotr32 (x n : Nat) : Nat := ((x >>> n) ||| (x <<< (32 - n))) % 2 ^ 32

/-- The padded message: the byte `0x80`, zeros up to 56 modulo 64, and the
length in bits as a 64-bit big-endian number. -/
def sha256Pad (msg : GoString) : List Nat :=
  let bits := (msg.length * 8) % 2 ^ 64
  msg.map UInt8.toNat ++ [0x80] ++ List.replicate ((119 - msg.length % 64) % 64) 0
    ++ (List.range 8).map (fun i => (bits >>> (8 * (7 - i))) % 256)

/-- Big-endian 32-bit words of a byte sequence (whole words only). -/
def sha256Words : List Nat → List Nat
  | b0 :: b1 :: b2 :: b3 :: rest =>
    (b0 * 2 ^ 24 + b1 * 2 ^ 16 + b2 * 2 ^ 8 + b3) :: sha256Words rest
  | _ => []

/-- Extend the message schedule by `n` words. -/
def sha256Schedule : Nat → List Nat → List Nat
  | 0, w => w
  | n + 1, w =>
    let k := w.length
    let w2 := w.getD (k - 2) 0
    let w7 := w.getD (k - 7) 0
    let w15 := w.getD (k - 15) 0
    let w16 := w.getD (k - 16) 0
    let s0 := rotr32 w15 7 ^^^ rotr32 w15 18 ^^^ (w15 >>> 3)
    let s1 := rotr32 w2 17 ^^^ rotr32 w2 19 ^^^ (w2 >>> 10)
    sha256Schedule n (w ++ [(s1 + w7 + s0 + w16) % 2 ^ 32])

/-- One round of the compression function. -/
def sha256Round (s : Sha256State) (kw : Nat × Nat) : Sha256State :=
  let S1 := rotr32 s.e 6 ^^^ rotr32 s.e 11 ^^^ rotr32 s.e 25
  let ch := (s.e &&& s.f) ^^^ ((2 ^ 32 - 1 - s.e) &&& s.g)
  let t1 := (s.h + S1 + ch + kw.1 + kw.2) % 2 ^ 32
  let S0 := rotr32 s.a 2 ^^^ rotr32 s.a 13 ^^^ rotr32 s.a 22
  let maj := (s.a &&& s.b) ^^^ (s.a &&& s.c) ^^^ (s.b &&& s.c)
  let t2 := (S0 + maj) % 2 ^ 32
  ⟨(t1 + t2) % 2 ^ 32, s.a, s.b, s.c, (s.d + t1) % 2 ^ 32, s.e, s.f, s.g⟩

/-- Compress one block of sixteen words into the chaining value. -/
def sha256Block (s : Sha256State) (block : List Nat) : Sha256State :=
  let t := (sha256K.zip (sha256Schedule 48 block)).foldl sha256Round s
  ⟨(s.a + t.a) % 2 ^ 32, (s.b + t.b) % 2 ^ 32, (s.c + t.c) % 2 ^ 32, (s.d + t.d) % 2 ^ 32,
   (s.e + t.e) % 2 ^ 32, (s.f + t.f) % 2 ^ 32, (s.g + t.g) % 2 ^ 32, (s.h + t.h) % 2 ^ 32⟩

/-- Process the words of the padded message, sixteen at a time. -/
def sha256Blocks : Nat → Sha256State → List Nat → Sha256State
  | 0, s, _ => s
  | n + 1, s, ws => if ws = [] then s else sha256Blocks n (sha256Block s (ws.take 16)) (ws.drop 16)

/-- The chaining value after the whole padded message. -/
def sha256Final (msg : GoString) : Sha256State :=
  let ws := sha256Words (sha256Pad msg)
  sha256Blocks ws.length sha256Init ws

/-- The four bytes of a 32-bit word, most significant first. -/
def be32 (x : Nat) : GoString :=
  [UInt8.ofNat (x / 2 ^ 24 % 256), UInt8.ofNat (x / 2 ^ 16 % 256),
   UInt8.ofNat (x / 2 ^ 8 % 256), UInt8.ofNat (x % 256)]

/-- The digest bytes of a chaining value. -/
def sha256Digest (s : Sha256State) : GoString :=
  be32 s.a ++ be32 s.b ++ be32 s.c ++ be32 s.d ++ be32 s.e ++ be32 s.f ++ be32 s.g ++ be32 s.h

/-- Go `sha256.Sum256`: the 32 bytes of the digest. -/
def sha256Sum256 (msg : GoString) : GoString := sha256Digest (sha256Final msg)

/-- The lower-case hexadecimal digit of a number below sixteen. -/
def hexDigit (n : Nat) : UInt8 :=
  if n < 10 then UInt8.ofNat (48 + n) else UInt8.ofNat (87 + n)

/-- The two hexadecimal digits of a byte. -/
def hexByte (b : UInt8) : GoString := [hexDigit (b.toNat / 16), hexDigit (b.toNat % 16)]

/-- Go `fmt.Sprintf("%x", bytes)`. -/
def hexEncode (bs : GoString) : GoString := bs.flatMap hexByte

/-! ## The cache file -/

/-- The environment of one run: variables of the process and what the
directory of Pulumi workspaces holds. -/
structure Env where
  /-- `os.Getenv("HOME")` -/
  home : GoString
  /-- `os.Getenv("TMPDIR")` -/
  tmpdir : GoString
  /-- `filepath.Glob`: the matches of a pattern, `none` for an error -/
  glob : GoString → Option (List GoString)
  /-- `os.Stat(p)` then `ModTime().UnixNano()`, `none` when `Stat` fails -/
  statModTime : GoString → Option Int

/-- Go `os.TempDir` on a Unix system: `$TMPDIR`, or `/tmp` when it is empty. -/
def osTempDir (E : Env) : GoString := if E.tmpdir = [] then str "/tmp" else E.tmpdir

/-- The name of the cache file of a working directory, without its directory:
`fmt.Sprintf("pulumi-ccstatusline-%s.json", hash)`. -/
def cacheFileName (cwd : GoString) : GoString :=
  str "pulumi-ccstatusline-" ++ hexEncode (sha256Sum256 cwd) ++ str ".json"

/-- The program's `cacheFilePath`. -/
def cacheFilePath (E : Env) (cwd : GoString) : GoString :=
  filepathJoin [osTempDir E, cacheFileName cwd]

/-! ## Time -/

/-- A Go `time.Time`, as the instant it denotes: nanoseconds since the Unix
epoch. -/
structure Time where
  unixNano : Int
  deriving DecidableEq, Repr

/-- The zero `time.Time` (January 1, year 1, 00:00:00 UTC), the value of a
field that was never set. -/
def zeroTime : Time := ⟨-62135596800 * 10 ^ 9⟩

/-- `cacheTTL = 30 * time.Second`, in nanoseconds. -/
def cacheTTL : Int := 30 * 10 ^ 9

/-- `commandTimeout = 10 * time.Second`, in nanoseconds. -/
def commandTimeout : Nat := 10 * 10 ^ 9

/-- Go `time.Since(t)` read at the instant `now`: the difference as a
`time.Duration`, which is an int64 and saturates at its bounds. -/
def timeSince (now t : Time) : Int :=
  let d := now.unixNano - t.unixNano
  if d > 2 ^ 63 - 1 then 2 ^ 63 - 1 else if d < -(2 ^ 63) then -(2 ^ 63) else d

/-- The year and the day of the year, both counted from March 1, of a day
of a 400-year era that starts on a March 1: centuries of 36524 days (the
fourth one has a day more), cycles of four years of 1461 days, years of 365
days (the fourth one has a day more). -/
def yearOfEra (doe : Int) : Int × Int :=
  let c := min (doe / 36524) 3
  let dc := doe - 36524 * c
  let q := dc / 1461
  let dq := dc % 1461
  let e := min (dq / 365) 3
  (100 * c + 4 * q + e, dq - 365 * e)

/-- The month and the day of the month of a day of the year counted from
March 1. -/
def monthDay (doy : Int) : Int × Int :=
  let mp := (5 * doy + 2) / 153
  (if mp < 10 then mp + 3 else mp - 9, doy - (153 * mp + 2) / 5 + 1)

/-- The civil date (year, month, day) of a day number counted from
1970-01-01, in the proleptic Gregorian calendar. -/
def civilFromDays (days : Int) : Int × Int × Int :=
  let z := days + 719468
  let era := z / 146097
  let yd := yearOfEra (z % 146097)
  let md := monthDay yd.2
  (if md.1 ≤ 2 then yd.1 + era * 400 + 1 else yd.1 + era * 400, md.1, md.2)

/-- The ASCII digit of a number below ten. -/
def digitChar (n : Nat) : UInt8 := UInt8.ofNat (48 + n)

/-- Decimal digits of a natural number, most significant first; `fuel`
bounds their number. -/
def formatNatAux : Nat → Nat → GoString
  | 0, _ => []
  | fuel + 1, n =>
    if n < 10 then [digitChar n] else formatNatAux fuel (n / 10) ++ [digitChar (n % 10)]

/-- Decimal digits of a natural number. -/
def formatNat (n : Nat) : GoString := formatNatAux (n + 1) n

/-- Go `strconv.FormatInt(i, 10)`. -/
def formatInt (i : Int) : GoString :=
  if i < 0 then 0x2d :: formatNat i.natAbs else formatNat i.toNat

/-- The last `width` decimal digits of a number: how Go writes the fields of
a date, which stay below ten to the power `width`. -/
def digitsFixed : Nat → Nat → GoString
  | 0, _ => []
  | width + 1, n => digitChar (n / 10 ^ width % 10) :: digitsFixed width n

/-- A sequence without the zeros at its end. -/
def dropTrailingZeros : GoString → GoString
  | [] => []
  | c :: cs =>
    match dropTrailingZeros cs with
    | [] => if c = 0x30 then [] else [c]
    | r => c :: r

/-- The fraction of a second of RFC3339Nano: empty for zero, else a period and
the nine digits without the trailing zeros. -/
def formatFraction (nsec : Nat) : GoString :=
  if nsec = 0 then [] else 0x2e :: dropTrailingZeros (digitsFixed 9 nsec)

/-- Go `Time.MarshalJSON` without the quotes: the instant in RFC 3339 with
nanoseconds, written in UTC; an error (`none`) when the year is outside
0 to 9999. Go writes a time in the zone the value carries and judges the year
there; a `Time` here is the instant alone, so this is the text of a value in
UTC. The zone changes the bytes written, not the instant read back, and the
theorems speak of what is read back. -/
def formatRFC3339Nano (t : Time) : Option GoString :=
  let sec := t.unixNano / 10 ^ 9
  let nsec := t.unixNano % 10 ^ 9
  let rem := sec % 86400
  match civilFromDays (sec / 86400) with
  | (y, m, d) =>
    if y < 0 ∨ 9999 < y then none
    else some (digitsFixed 4 y.toNat ++ 0x2d :: digitsFixed 2 m.toNat ++ 0x2d :: digitsFixed 2 d.toNat
      ++ 0x54 :: digitsFixed 2 (rem / 3600).toNat ++ 0x3a :: digitsFixed 2 (rem % 3600 / 60).toNat
      ++ 0x3a :: digitsFixed 2 (rem % 60).toNat ++ formatFraction nsec.toNat ++ [0x5a])

/-! ## The snapshot and its JSON encoding -/

/-- The program's `PulumiData`, the cached snapshot. -/
structure PulumiData where
  LastUpdate : Time
  FetchedAt : Time
  ProjectName : GoString
  StackName : GoString
  LastStatus : GoString
  WorkspaceMtime : Int
  ResourceCount : Int
  deriving DecidableEq, Repr

/-- The length of the UTF-8 sequence that a first byte announces: two for
`C2` to `DF`, three for `E0` to `EF`, four for `F0` to `F4`, zero for a byte
that starts no sequence. -/
def utf8Size (b0 : UInt8) : Nat :=
  if 0xc2 ≤ b0 ∧ b0 ≤ 0xdf then 2
  else if 0xe0 ≤ b0 ∧ b0 ≤ 0xef then 3
  else if 0xf0 ≤ b0 ∧ b0 ≤ 0xf4 then 4
  else 0

/-- Whether `b1` may follow the first byte `b0`: `80` to `BF`, narrowed after
`E0` (from `A0`), `ED` (to `9F`), `F0` (from `90`) and `F4` (to `8F`). -/
def utf8Second (b0 b1 : UInt8) : Bool :=
  (if b0 = 0xe0 then 0xa0 else if b0 = 0xf0 then 0x90 else 0x80) ≤ b1 ∧
  b1 ≤ (if b0 = 0xed then 0x9f else if b0 = 0xf4 then 0x8f else 0xbf)

/-- Whether a byte is a continuation byte, `80` to `BF`. -/
def utf8Cont (b : UInt8) : Bool := 0x80 ≤ b ∧ b ≤ 0xbf

/-- Whether the bytes after the first byte `b0` complete a sequence of the
given length. -/
def utf8TailOk (b0 : UInt8) : Nat → GoString → Bool
  | 2, b1 :: _ => utf8Second b0 b1
  | 3, b1 :: b2 :: _ => utf8Second b0 b1 && utf8Cont b2
  | 4, b1 :: b2 :: b3 :: _ => utf8Second b0 b1 && utf8Cont b2 && utf8Cont b3
  | _, _ => false

/-- Go `utf8.DecodeRune`, as far as the encoder needs it: the length of the
well-formed UTF-8 sequence at the front of `s`, `none` when there is none (Go
then yields `RuneError` with size one). -/
def utf8RuneLen : GoString → Option Nat
  | [] => none
  | b0 :: rest =>
    if b0 < 0x80 then some 1
    else if utf8TailOk b0 (utf8Size b0) rest then some (utf8Size b0)
    else none

/-- How `encoding/json` writes an ASCII byte inside a string (with its default
HTML escaping): printable bytes other than the quote, the backslash and the
characters less-than, greater-than and ampersand stand for themselves; the
rest is escaped. -/
def jsonEscapeByte (b : UInt8) : GoString :=
  if 0x20 ≤ b ∧ b ≠ 0x22 ∧ b ≠ 0x26 ∧ b ≠ 0x3c ∧ b ≠ 0x3e ∧ b ≠ 0x5c then [b]
  else if b = 0x5c ∨ b = 0x22 then [0x5c, b]
  else if b = 0x08 then str "\\b"
  else if b = 0x0c then str "\\f"
  else if b = 0x0a then str "\\n"
  else if b = 0x0d then str "\\r"
  else if b = 0x09 then str "\\t"
  else str "\\u00" ++ hexByte b

/-- The body of a JSON string as `encoding/json` writes it: ASCII bytes by
`jsonEscapeByte`, a well-formed UTF-8 sequence as it is (U+2028 and U+2029
escaped), and every byte that is not part of one as the replacement character
`�`. -/
def jsonEscape : Nat → GoString → GoString
  | 0, _ => []
  | _, [] => []
  | fuel + 1, b :: rest =>
    if b < 0x80 then jsonEscapeByte b ++ jsonEscape fuel rest
    else
      match utf8RuneLen (b :: rest) with
      | none => str "\\ufffd" ++ jsonEscape fuel rest
      | some n =>
        if (b :: rest).take 3 = [0xe2, 0x80, 0xa8] then str "\\u2028" ++ jsonEscape fuel (rest.drop 2)
        else if (b :: rest).take 3 = [0xe2, 0x80, 0xa9] then str "\\u2029" ++ jsonEscape fuel (rest.drop 2)
        else (b :: rest).take n ++ jsonEscape fuel (rest.drop (n - 1))

/-- A Go string as a JSON string. -/
def jsonString (s : GoString) : GoString := 0x22 :: jsonEscape s.length s ++ [0x22]

/-- A member of a JSON object as `encoding/json` writes it: the name in
quotes, a colon, the value. -/
def jsonMember (key : String) (value : GoString) : GoString :=
  0x22 :: (str key ++ 0x22 :: 0x3a :: value)

/-- Go `json.Marshal` of a `PulumiData`: the fields in the order of the struct
under their `json` tags, separated by commas, in braces; an error (`none`)
when a time cannot be written. The two times are written as
`formatRFC3339Nano` writes them, in UTC. -/
def jsonMarshal (d : PulumiData) : Option GoString :=
  match formatRFC3339Nano d.LastUpdate, formatRFC3339Nano d.FetchedAt with
  | some lu, some fa =>
    some (0x7b :: (jsonMember "last_update" (0x22 :: (lu ++ [0x22])) ++ 0x2c ::
      (jsonMember "fetched_at" (0x22 :: (fa ++ [0x22])) ++ 0x2c ::
      (jsonMember "project_name" (jsonString d.ProjectName) ++ 0x2c ::
      (jsonMember "stack_name" (jsonString d.StackName) ++ 0x2c ::
      (jsonMember "last_status" (jsonString d.LastStatus) ++ 0x2c ::
      (jsonMember "workspace_mtime" (formatInt d.WorkspaceMtime) ++ 0x2c ::
      (jsonMember "resource_count" (formatInt d.ResourceCount) ++ [0x7d]))))))))
  | _, _ => none

/-- What `encoding/json` makes of a string on the way through a document: a
well-formed UTF-8 sequence stays, every other byte becomes U+FFFD. -/
def toValidUTF8 : Nat → GoString → GoString
  | 0, _ => []
  | _, [] => []
  | fuel + 1, b :: rest =>
    if b < 0x80 then b :: toValidUTF8 fuel rest
    else
      match utf8RuneLen (b :: rest) with
      | none => [0xef, 0xbf, 0xbd] ++ toValidUTF8 fuel rest
      | some n => (b :: rest).take n ++ toValidUTF8 fuel (rest.drop (n - 1))

/-- A string coerced to UTF-8 the way `encoding/json` does it. -/
def jsonCoerce (s : GoString) : GoString := toValidUTF8 s.length s

/-- A snapshot as it comes back from its JSON encoding. -/
def PulumiData.jsonCoerced (d : PulumiData) : PulumiData :=
  { d with ProjectName := jsonCoerce d.ProjectName, StackName := jsonCoerce d.StackName,
           LastStatus := jsonCoerce d.LastStatus }

/-- The integer fields fit their Go types: `WorkspaceMtime` is an int64 and
`ResourceCount` an int (64 bits wide). -/
def PulumiData.inRange (d : PulumiData) : Prop :=
  -(2 ^ 63) ≤ d.WorkspaceMtime ∧ d.WorkspaceMtime < 2 ^ 63 ∧
  -(2 ^ 63) ≤ d.ResourceCount ∧ d.ResourceCount < 2 ^ 63

/-- Whether a byte sequence is well-formed UTF-8 (Go `utf8.Valid`). -/
def utf8ValidAux : Nat → GoString → Bool
  | _, [] => true
  | 0, _ :: _ => false
  | fuel + 1, b :: rest =>
    match utf8RuneLen (b :: rest) with
    | none => false
    | some n => utf8ValidAux fuel (rest.drop (n - 1))

/-- Go `utf8.Valid`. -/
def utf8Valid (s : GoString) : Bool := utf8ValidAux s.length s

/-! ## The standard library, as far as it is left open -/

/-- The program's `stackListEntry`, one entry of `pulumi stack ls --json`. -/
structure StackListEntry where
  Name : GoString
  LastUpdate : GoString
  URL : GoString
  ResourceCount : Int
  Current : Bool
  UpdateInProgress : Bool
  deriving DecidableEq, Repr

/-- The program's `historyEntry`, one entry of `pulumi stack history --json`. -/
structure HistoryEntry where
  Result : GoString
  deriving DecidableEq, Repr

/-- The decoders of the standard library that the program calls. `none` is a
returned error. -/
structure GoLib where
  /-- `json.Unmarshal(data, &cached)` for `cached PulumiData` -/
  unmarshalPulumiData : GoString → Option PulumiData
  /-- `json.Unmarshal([]byte(out), &entries)` for `entries []stackListEntry` -/
  unmarshalStackList : GoString → Option (List StackListEntry)
  /-- `json.Unmarshal([]byte(out), &entries)` for `entries []historyEntry` -/
  unmarshalHistory : GoString → Option (List HistoryEntry)
  /-- `time.Parse(time.RFC3339, value)` -/
  timeParseRFC3339 : GoString → Option Time

/-- What the theorems about the cache take from the documentation of
`encoding/json`: `json.Unmarshal` reads back what `json.Marshal` wrote for a
`PulumiData`, the times and the integers as they were and every string coerced
to UTF-8. -/
structure GoLib.Lawful (L : GoLib) : Prop where
  unmarshal_marshal : ∀ d raw, d.inRange → jsonMarshal d = some raw →
    L.unmarshalPulumiData raw = some d.jsonCoerced

/-! ## The world: files, clock, subprocesses -/

/-- The files the program reads and writes. -/
structure FS where
  /-- `os.ReadFile`: the content of a path, `none` when reading fails -/
  files : GoString → Option GoString
  /-- whether `os.WriteFile` to a path succeeds -/
  writable : GoString → Bool

/-- Go `os.WriteFile(path, data, 0o600)`: on success the path holds `data`, on
failure nothing changes. -/
def FS.writeFile (fs : FS) (path data : GoString) : FS :=
  if fs.writable path then
    { fs with files := fun p => if p = path then some data else fs.files p }
  else fs

/-- What running a command yields: its standard output, whether it exited
with status zero, and how long it would run. -/
structure CmdResult where
  stdout : GoString
  exitOk : Bool
  nanos : Nat

/-- The `pulumi` executable: the outcome of a run, by its arguments. -/
abbrev Pulumi := List GoString → CmdResult

/-- The state one invocation of the program works in. -/
structure World where
  fs : FS
  /-- the wall clock -/
  now : Time
  /-- the subprocesses run so far, by their arguments -/
  calls : List (List GoString)

/-! ## The program -/

/-- The program's `readProjectName`: the text after `name:` on the first line
of `Pulumi.yaml` that starts with it, or the empty string. -/
def readProjectName (fs : FS) (cwd : GoString) : GoString :=
  match fs.files (filepathJoin [cwd, str "Pulumi.yaml"]) with
  | none => []
  | some data => readProjectNameLines (stringsSplit 0x0a data)

/-- The program's `workspaceMtime`: the modification time of the first
workspace file of the project, zero when there is none. -/
def workspaceMtime (E : Env) (fs : FS) (cwd : GoString) : Int :=
  let wsDir := filepathJoin [E.home, str ".pulumi", str "workspaces"]
  let projectName := readProjectName fs cwd
  if projectName = [] then 0
  else
    match E.glob (filepathJoin [wsDir, projectName ++ str "-*-workspace.json"]) with
    | none => 0
    | some [] => 0
    | some (m :: _) =>
      match E.statModTime m with
      | none => 0
      | some t => t

/-- The program's `readCache`, with the file system and the clock it reads. -/
def readCache (L : GoLib) (E : Env) (fs : FS) (now : Time) (cwd : GoString)
    (currentMtime : Int) : Option PulumiData :=
  match fs.files (cacheFilePath E cwd) with
  | none => none
  | some data =>
    match L.unmarshalPulumiData data with
    | none => none
    | some cached =>
      if cached.WorkspaceMtime ≠ currentMtime then none
      else if timeSince now cached.FetchedAt > cacheTTL then none
      else some cached

/-- The program's `writeCache`: nothing happens when `json.Marshal` fails, and
the error of `os.WriteFile` is dropped. -/
def writeCache (E : Env) (fs : FS) (cwd : GoString) (data : PulumiData) : FS :=
  match jsonMarshal data with
  | none => fs
  | some raw => fs.writeFile (cacheFilePath E cwd) raw

/-- The program's `runPulumi`: `--cwd` and the directory are appended to the
arguments, the process is killed when it runs into `commandTimeout`, and a
failed run yields an error (`none`). The run is recorded and takes time. -/
def runPulumi (P : Pulumi) (w : World) (cwd : GoString) (args : List GoString) :
    Option GoString × World :=
  let args := args ++ [str "--cwd", cwd]
  let r := P args
  let w1 : World :=
    { w with calls := w.calls ++ [args], now := ⟨w.now.unixNano + min r.nanos commandTimeout⟩ }
  if commandTimeout ≤ r.nanos ∨ r.exitOk = false then (none, w1) else (some r.stdout, w1)

/-- The loop of `fillStackListData` over the decoded entries: the first entry
flagged current becomes the snapshot. (`extractStackName` has no `none`
result, see `extractStackName_some`; the branch stands for the index panic of
the source.) -/
def stackListCurrent (L : GoLib) (now : Time) : List StackListEntry → Option PulumiData
  | [] => none
  | entry :: rest =>
    if entry.Current = false then stackListCurrent L now rest
    else
      match extractStackName entry.Name with
      | none => none
      | some name =>
        let data : PulumiData :=
          { LastUpdate := zeroTime, FetchedAt := now, ProjectName := [], StackName := name,
            LastStatus := [], WorkspaceMtime := 0, ResourceCount := entry.ResourceCount }
        if entry.LastUpdate ≠ [] then
          match L.timeParseRFC3339 entry.LastUpdate with
          | some t => some { data with LastUpdate := t }
          | none => some data
        else some data

/-- The program's `fillStackListData`. -/
def fillStackListData (L : GoLib) (P : Pulumi) (w : World) (cwd : GoString) :
    Option PulumiData × World :=
  match runPulumi P w cwd [str "stack", str "ls", str "--json"] with
  | (none, w1) => (none, w1)
  | (some out, w1) =>
    match L.unmarshalStackList out with
    | none => (none, w1)
    | some entries => (stackListCurrent L w1.now entries, w1)

/-- The program's `fillHistoryStatus`. -/
def fillHistoryStatus (L : GoLib) (P : Pulumi) (w : World) (cwd : GoString)
    (data : PulumiData) : PulumiData × World :=
  match runPulumi P w cwd
      [str "stack", str "history", str "--json", str "--page-size", str "1"] with
  | (none, w1) => (data, w1)
  | (some out, w1) =>
    match L.unmarshalHistory out with
    | none => (data, w1)
    | some [] => (data, w1)
    | some (e :: _) => ({ data with LastStatus := e.Result }, w1)

/-- The program's `getPulumiData`: the snapshot it returns and the world it
leaves behind. -/
def getPulumiData (L : GoLib) (E : Env) (P : Pulumi) (w : World) (cwd : GoString) :
    Option PulumiData × World :=
  let mtime := workspaceMtime E w.fs cwd
  match readCache L E w.fs w.now cwd mtime with
  | some cached => (some cached, w)
  | none =>
    match fillStackListData L P w cwd with
    | (none, w1) => (none, w1)
    | (some data, w1) =>
      let data := { data with ProjectName := readProjectName w1.fs cwd }
      match fillHistoryStatus L P w1 cwd data with
      | (data, w2) =>
        let data := { data with WorkspaceMtime := mtime }
        (some data, { w2 with fs := writeCache E w2.fs cwd data })

/-! ## A reference library

Decoders for the documents the program meets, used to run the definitions
above on concrete input: JSON objects whose members are strings, numbers,
booleans or `null`, arrays of such objects, and RFC 3339 timestamps. They read
back what the encoder above writes (`refLib_lawful`). -/

/-- The day number, counted from 1970-01-01, of a civil date. -/
def daysFromCivil (y m d : Int) : Int :=
  let y1 := if m ≤ 2 then y - 1 else y
  let era := y1 / 400
  let yoe := y1 - era * 400
  let doy := (153 * (if m > 2 then m - 3 else m + 9) + 2) / 5 + d - 1
  era * 146097 + (yoe * 365 + yoe / 4 - yoe / 100 + doy) - 719468

/-- The value of a decimal digit. -/
def digitVal (b : UInt8) : Option Nat :=
  if 0x30 ≤ b ∧ b ≤ 0x39 then some (b.toNat - 48) else none

/-- Read exactly `n` decimal digits. -/
def readDigits : Nat → GoString → Option (Nat × GoString)
  | 0, s => some (0, s)
  | _ + 1, [] => none
  | n + 1, b :: rest =>
    match digitVal b, readDigits n rest with
    | some v, some (x, t) => some (v * 10 ^ n + x, t)
    | _, _ => none

/-- The number of days of a month. -/
def daysIn (y m : Nat) : Nat :=
  if m = 2 then (if y % 4 = 0 ∧ (y % 100 ≠ 0 ∨ y % 400 = 0) then 29 else 28)
  else if m = 4 ∨ m = 6 ∨ m = 9 ∨ m = 11 then 30 else 31

/-- The zone of an RFC 3339 timestamp, in seconds east of UTC; nothing may
follow it. -/
def refParseZone : GoString → Option Int
  | [0x5a] => some 0
  | sign :: rest =>
    if sign = 0x2b ∨ sign = 0x2d then
      match readDigits 2 rest with
      | some (hh, 0x3a :: t) =>
        match readDigits 2 t with
        | some (mm, []) =>
          if hh < 24 ∧ mm < 60 then
            some (if sign = 0x2d then -((hh * 60 + mm) * 60 : Int) else ((hh * 60 + mm) * 60 : Int))
          else none
        | _ => none
      | _ => none
    else none
  | [] => none

/-- The fraction of a second, in nanoseconds, and what follows it. -/
def refParseFraction (s : GoString) : Nat × GoString :=
  match s with
  | 0x2e :: rest =>
    let ds := rest.takeWhile (fun b => (digitVal b).isSome)
    if ds = [] then (0, s)
    else
      let nine := (ds ++ List.replicate 9 0x30).take 9
      (((readDigits 9 nine).map Prod.fst).getD 0, rest.drop ds.length)
  | _ => (0, s)

/-- The instant of a civil date and time of day in a zone, when they are in
range. -/
def refInstant (y mo d hh mi ss ns : Nat) (off : Int) : Option Time :=
  if 1 ≤ mo ∧ mo ≤ 12 ∧ 1 ≤ d ∧ d ≤ daysIn y mo ∧ hh < 24 ∧ mi < 60 ∧ ss < 60 then
    some ⟨((daysFromCivil y mo d * 86400 + hh * 3600 + mi * 60 + ss - off) * 1000000000 + ns : Int)⟩
  else none

/-- Two digits and the separator that follows them. -/
def readField (sep : GoString) (n : Nat) (s : GoString) : Option (Nat × GoString) :=
  match readDigits n s with
  | none => none
  | some (v, t) => (stringsCutPrefix t sep).map (fun u => (v, u))

/-- A reference `time.Parse(time.RFC3339, value)`. -/
def refParseTime (s : GoString) : Option Time :=
  match readField (str "-") 4 s with
  | none => none
  | some (y, s1) =>
  match readField (str "-") 2 s1 with
  | none => none
  | some (mo, s2) =>
  match readField (str "T") 2 s2 with
  | none => none
  | some (d, s3) =>
  match readField (str ":") 2 s3 with
  | none => none
  | some (hh, s4) =>
  match readField (str ":") 2 s4 with
  | none => none
  | some (mi, s5) =>
  match readDigits 2 s5 with
  | none => none
  | some (ss, s6) =>
  match refParseZone (refParseFraction s6).2 with
  | none => none
  | some off => refInstant y mo d hh mi ss (refParseFraction s6).1 off

/-- A JSON value that is not an array or an object. -/
inductive JScalar where
  | null
  | bool (b : Bool)
  | num (lit : GoString)
  | str (s : GoString)
  deriving DecidableEq, Repr

/-- Skip JSON white space. -/
def skipWS (s : GoString) : GoString :=
  s.dropWhile (fun b => b = 0x20 ∨ b = 0x09 ∨ b = 0x0a ∨ b = 0x0d)

/-- The UTF-8 encoding of a code point. -/
def utf8Encode (r : Nat) : GoString :=
  if r < 0x80 then [UInt8.ofNat r]
  else if r < 0x800 then [UInt8.ofNat (0xc0 + r / 64), UInt8.ofNat (0x80 + r % 64)]
  else if r < 0x10000 then
    [UInt8.ofNat (0xe0 + r / 4096), UInt8.ofNat (0x80 + r / 64 % 64), UInt8.ofNat (0x80 + r % 64)]
  else
    [UInt8.ofNat (0xf0 + r / 262144), UInt8.ofNat (0x80 + r / 4096 % 64),
     UInt8.ofNat (0x80 + r / 64 % 64), UInt8.ofNat (0x80 + r % 64)]

/-- The value of a hexadecimal digit. -/
def hexVal (b : UInt8) : Option Nat :=
  if 0x30 ≤ b ∧ b ≤ 0x39 then some (b.toNat - 48)
  else if 0x61 ≤ b ∧ b ≤ 0x66 then some (b.toNat - 87)
  else if 0x41 ≤ b ∧ b ≤ 0x46 then some (b.toNat - 55)
  else none

/-- Four hexadecimal digits. -/
def readHex4 : GoString → Option (Nat × GoString)
  | a :: b :: c :: d :: rest =>
    match hexVal a, hexVal b, hexVal c, hexVal d with
    | some x, some y, some z, some w => some (x * 4096 + y * 256 + z * 16 + w, rest)
    | _, _, _, _ => none
  | _ => none

/-- The byte that a one-letter escape stands for. -/
def refPlainEscape (c : UInt8) : Option UInt8 :=
  if c = 0x22 ∨ c = 0x5c ∨ c = 0x2f then some c
  else if c = 0x62 then some 0x08
  else if c = 0x66 then some 0x0c
  else if c = 0x6e then some 0x0a
  else if c = 0x72 then some 0x0d
  else if c = 0x74 then some 0x09
  else none

/-- The second half of a surrogate pair at the front of `s`, when there is
one: its value and the rest. -/
def refLowSurrogate : GoString → Option (Nat × GoString)
  | 0x5c :: 0x75 :: t =>
    match readHex4 t with
    | some (r2, t3) => if 0xdc00 ≤ r2 ∧ r2 < 0xe000 then some (r2, t3) else none
    | none => none
  | _ => none

/-- What an escape sequence stands for, given the text after its backslash:
the bytes and the rest. A `\u` escape that is half of a surrogate pair without
its other half stands for U+FFFD. -/
def refEscape : GoString → Option (GoString × GoString)
  | [] => none
  | c :: t =>
    if c = 0x75 then
      match readHex4 t with
      | none => none
      | some (r, t1) =>
        if 0xd800 ≤ r ∧ r < 0xdc00 then
          match refLowSurrogate t1 with
          | some (r2, t3) => some (utf8Encode (0x10000 + (r - 0xd800) * 1024 + (r2 - 0xdc00)), t3)
          | none => some (utf8Encode 0xfffd, t1)
        else if 0xdc00 ≤ r ∧ r < 0xe000 then some (utf8Encode 0xfffd, t1)
        else some (utf8Encode r, t1)
    else (refPlainEscape c).map (fun v => ([v], t))

/-- What the bytes at the front of `s` stand for when they are neither ASCII
nor an escape: a well-formed UTF-8 sequence stands for itself, any other byte
for U+FFFD. -/
def refRune (s : GoString) : GoString × GoString :=
  match utf8RuneLen s with
  | none => (utf8Encode 0xfffd, s.drop 1)
  | some n => (s.take n, s.drop n)

/-- The body of a JSON string up to its closing quote, decoded: escapes are
resolved, and what is not well-formed UTF-8 or a proper surrogate pair becomes
U+FFFD. -/
def refStringBody : Nat → GoString → Option (GoString × GoString)
  | 0, _ => none
  | _, [] => none
  | fuel + 1, b :: rest =>
    if b = 0x22 then some ([], rest)
    else if b < 0x20 then none
    else if b = 0x5c then
      match refEscape rest with
      | none => none
      | some (bytes, t) => (refStringBody fuel t).map (fun x => (bytes ++ x.1, x.2))
    else if b < 0x80 then (refStringBody fuel rest).map (fun x => (b :: x.1, x.2))
    else
      (refStringBody fuel (refRune (b :: rest)).2).map
        (fun x => ((refRune (b :: rest)).1 ++ x.1, x.2))

/-- Whether a byte is a decimal digit. -/
def isDigit (b : UInt8) : Bool := (digitVal b).isSome

/-- The fraction of a JSON number at the front of `s`: a period and the
digits after it, or nothing. -/
def refFractionPart : GoString → GoString
  | [] => []
  | c :: t => if c = 0x2e then c :: t.takeWhile isDigit else []

/-- The exponent of a JSON number at the front of `s`: the letter, an optional
sign and the digits after them, or nothing. -/
def refExponentPart : GoString → GoString
  | [] => []
  | e :: t =>
    if e = 0x65 ∨ e = 0x45 then
      match t with
      | [] => [e]
      | sg :: u =>
        if sg = 0x2b ∨ sg = 0x2d then e :: sg :: u.takeWhile isDigit else e :: t.takeWhile isDigit
    else []

/-- The text of a JSON number at the front of `s`: an optional minus sign, the
integer part without a superfluous leading zero, an optional fraction and an
optional exponent. -/
def refNumber (s : GoString) : Option (GoString × GoString) :=
  let sign : GoString := if s.head? = some 0x2d then [0x2d] else []
  let s1 := s.drop sign.length
  let int := s1.takeWhile isDigit
  let s2 := s1.drop int.length
  let frac := refFractionPart s2
  let s3 := s2.drop frac.length
  let exp := refExponentPart s3
  if int ≠ [] ∧ (int.head? ≠ some 0x30 ∨ int.length = 1) ∧ frac.length ≠ 1
      ∧ (exp = [] ∨ exp.filter isDigit ≠ []) then
    some (sign ++ int ++ frac ++ exp, s3.drop exp.length)
  else none

/-- A scalar JSON value at the front of `s`. -/
def refScalar (s : GoString) : Option (JScalar × GoString) :=
  match s with
  | [] => none
  | c :: rest =>
    if c = 0x22 then (refStringBody rest.length rest).map (fun x => (JScalar.str x.1, x.2))
    else if c = 0x6e then (stringsCutPrefix s (PulumiStatusline.str "null")).map (fun t => (JScalar.null, t))
    else if c = 0x74 then
      (stringsCutPrefix s (PulumiStatusline.str "true")).map (fun t => (JScalar.bool true, t))
    else if c = 0x66 then
      (stringsCutPrefix s (PulumiStatusline.str "false")).map (fun t => (JScalar.bool false, t))
    else (refNumber s).map (fun x => (JScalar.num x.1, x.2))

/-- The members of a JSON object after its opening brace, up to and including
the closing brace. -/
def refMembers : Nat → GoString → Option (List (GoString × JScalar) × GoString)
  | 0, _ => none
  | fuel + 1, s =>
    match skipWS s with
    | 0x22 :: rest =>
      match refStringBody rest.length rest with
      | none => none
      | some (key, t) =>
        match skipWS t with
        | 0x3a :: t1 =>
          match refScalar (skipWS t1) with
          | none => none
          | some (v, t2) =>
            match skipWS t2 with
            | 0x2c :: t3 => (refMembers fuel t3).map (fun x => ((key, v) :: x.1, x.2))
            | 0x7d :: t3 => some ([(key, v)], t3)
            | _ => none
        | _ => none
    | _ => none

/-- A JSON object of scalars at the front of `s`. -/
def refObject (s : GoString) : Option (List (GoString × JScalar) × GoString) :=
  match skipWS s with
  | 0x7b :: rest =>
    match skipWS rest with
    | 0x7d :: t => some ([], t)
    | _ => refMembers rest.length rest
  | _ => none

/-- The elements of a JSON array of objects after its opening bracket. -/
def refElements : Nat → GoString → Option (List (List (GoString × JScalar)) × GoString)
  | 0, _ => none
  | fuel + 1, s =>
    match refObject s with
    | none => none
    | some (o, t) =>
      match skipWS t with
      | 0x2c :: t1 => (refElements fuel t1).map (fun x => (o :: x.1, x.2))
      | 0x5d :: t1 => some ([o], t1)
      | _ => none

/-- A whole document that is an array of objects, or `null`. -/
def refArray (s : GoString) : Option (List (List (GoString × JScalar))) :=
  match skipWS s with
  | 0x5b :: rest =>
    match skipWS rest with
    | 0x5d :: t => if skipWS t = [] then some [] else none
    | _ =>
      match refElements rest.length rest with
      | some (os, t) => if skipWS t = [] then some os else none
      | none => none
  | t => if (stringsCutPrefix t (str "null")).map skipWS = some [] then some [] else none

/-- ASCII lower case, for the case-insensitive match of member names. -/
def lowerASCII (s : GoString) : GoString :=
  s.map (fun b => if 0x41 ≤ b ∧ b ≤ 0x5a then b + 32 else b)

/-- Whether a member name selects the field with the given tag. -/
def keyIs (key : GoString) (tag : String) : Bool := lowerASCII key = lowerASCII (str tag)

/-- An integer field from a JSON number: digits with an optional sign, within
the range of int64. -/
def refInt (lit : GoString) : Option Int :=
  let neg := lit.head? = some 0x2d
  let ds := if neg then lit.drop 1 else lit
  if ds = [] ∨ ds.any (fun b => (digitVal b).isNone) then none
  else
    let n := ds.foldl (fun acc b => acc * 10 + (digitVal b).getD 0) 0
    let v : Int := if neg then -(n : Int) else n
    if -(2 ^ 63) ≤ v ∧ v < 2 ^ 63 then some v else none

/-- Store one member into a `PulumiData`. `null` leaves a field as it is, a
member of another name is ignored, a value of the wrong kind is an error. -/
def refSetPulumiData (d : PulumiData) (kv : GoString × JScalar) : Option PulumiData :=
  let isTime := keyIs kv.1 "last_update" ∨ keyIs kv.1 "fetched_at"
  let isStr := keyIs kv.1 "project_name" ∨ keyIs kv.1 "stack_name" ∨ keyIs kv.1 "last_status"
  let isInt := keyIs kv.1 "workspace_mtime" ∨ keyIs kv.1 "resource_count"
  match kv.2 with
  | JScalar.null => some d
  | JScalar.str v =>
    if isTime then
      (refParseTime v).map (fun t =>
        if keyIs kv.1 "last_update" then { d with LastUpdate := t } else { d with FetchedAt := t })
    else if keyIs kv.1 "project_name" then some { d with ProjectName := v }
    else if keyIs kv.1 "stack_name" then some { d with StackName := v }
    else if keyIs kv.1 "last_status" then some { d with LastStatus := v }
    else if isInt then none
    else some d
  | JScalar.num lit =>
    if isInt then
      (refInt lit).map (fun i =>
        if keyIs kv.1 "workspace_mtime" then { d with WorkspaceMtime := i }
        else { d with ResourceCount := i })
    else if isTime ∨ isStr then none
    else some d
  | JScalar.bool _ => if isTime ∨ isStr ∨ isInt then none else some d

/-- The members of an object stored one after the other. -/
def refFold {α : Type} (set : α → GoString × JScalar → Option α) :
    α → List (GoString × JScalar) → Option α
  | a, [] => some a
  | a, kv :: rest =>
    match set a kv with
    | none => none
    | some b => refFold set b rest

/-- A reference `json.Unmarshal` into a `PulumiData` that starts as the zero
value. -/
def refUnmarshalPulumiData (raw : GoString) : Option PulumiData :=
  if (stringsCutPrefix (skipWS raw) (str "null")).map skipWS = some [] then
    some ⟨zeroTime, zeroTime, [], [], [], 0, 0⟩
  else
    match refObject raw with
    | some (kvs, t) =>
      if skipWS t = [] then refFold refSetPulumiData ⟨zeroTime, zeroTime, [], [], [], 0, 0⟩ kvs
      else none
    | none => none

/-- Store one member into a `StackListEntry`. -/
def refSetStackListEntry (e : StackListEntry) (kv : GoString × JScalar) : Option StackListEntry :=
  let isStr := keyIs kv.1 "name" ∨ keyIs kv.1 "lastUpdate" ∨ keyIs kv.1 "url"
  let isBool := keyIs kv.1 "current" ∨ keyIs kv.1 "updateInProgress"
  let isInt := keyIs kv.1 "resourceCount"
  match kv.2 with
  | JScalar.null => some e
  | JScalar.str v =>
    if keyIs kv.1 "name" then some { e with Name := v }
    else if keyIs kv.1 "lastUpdate" then some { e with LastUpdate := v }
    else if keyIs kv.1 "url" then some { e with URL := v }
    else if isBool ∨ isInt then none
    else some e
  | JScalar.num lit =>
    if isInt then (refInt lit).map (fun i => { e with ResourceCount := i })
    else if isStr ∨ isBool then none
    else some e
  | JScalar.bool b =>
    if keyIs kv.1 "current" then some { e with Current := b }
    else if keyIs kv.1 "updateInProgress" then some { e with UpdateInProgress := b }
    else if isStr ∨ isInt then none
    else some e

/-- Store one member into a `HistoryEntry`. -/
def refSetHistoryEntry (e : HistoryEntry) (kv : GoString × JScalar) : Option HistoryEntry :=
  if keyIs kv.1 "result" then
    match kv.2 with
    | JScalar.null => some e
    | JScalar.str v => some { e with Result := v }
    | _ => none
  else some e

/-- Decode every object of an array. -/
def refMapObjects {α : Type} (zero : α) (set : α → GoString × JScalar → Option α) :
    List (List (GoString × JScalar)) → Option (List α)
  | [] => some []
  | o :: rest =>
    match refFold set zero o, refMapObjects zero set rest with
    | some a, some as => some (a :: as)
    | _, _ => none

/-- A reference `json.Unmarshal` into a `[]stackListEntry`. -/
def refUnmarshalStackList (raw : GoString) : Option (List StackListEntry) :=
  (refArray raw).bind (refMapObjects ⟨[], [], [], 0, false, false⟩ refSetStackListEntry)

/-- A reference `json.Unmarshal` into a `[]historyEntry`. -/
def refUnmarshalHistory (raw : GoString) : Option (List HistoryEntry) :=
  (refArray raw).bind (refMapObjects ⟨[]⟩ refSetHistoryEntry)

/-- The reference library. -/
def refLib : GoLib where
  unmarshalPulumiData := refUnmarshalPulumiData
  unmarshalStackList := refUnmarshalStackList
  unmarshalHistory := refUnmarshalHistory
  timeParseRFC3339 := refParseTime

/-! ## Example data -/

/-- An environment without `$TMPDIR` and without workspace files. -/
def exampleEnv : Env := ⟨str "/home/dev", [], fun _ => none, fun _ => none⟩

/-- Empty storage on which every write succeeds. -/
def exampleFS : FS := ⟨fun _ => none, fun _ => true⟩

/-- The snapshot of the test `TestCacheRoundTrip`, fetched at
2025-01-15T10:31:00Z. -/
def exampleSnapshot : PulumiData :=
  { LastUpdate := ⟨1736937000000000000⟩, FetchedAt := ⟨1736937060000000000⟩, ProjectName := [],
    StackName := str "dev", LastStatus := str "succeeded", WorkspaceMtime := 1234567890,
    ResourceCount := 42 }

/-- A snapshot whose project name is the single byte `0xff`, which is not
UTF-8: what `readProjectName` yields for a `Pulumi.yaml` holding the line
`name: ` followed by that byte. -/
def snapshotInvalidUTF8 : PulumiData := { exampleSnapshot with ProjectName := [0xff] }

/-- Ten seconds after the example snapshots were fetched. -/
def exampleNow : Time := ⟨1736937070000000000⟩

/-- A `pulumi` whose `stack ls` lists two stacks, the second one selected, and
whose `stack history` exits with an error. -/
def examplePulumi : Pulumi := fun args =>
  if args.take 2 = [str "stack", str "ls"] then
    { stdout := str ("[\x7b\"name\":\"acme/web/staging\",\"current\":false,\"resourceCount\":7\x7d,"
        ++ "\x7b\"name\":\"acme/web/production\",\"current\":true,"
        ++ "\"lastUpdate\":\"2025-01-15T10:30:00.000Z\",\"updateInProgress\":false,"
        ++ "\"resourceCount\":42,\"url\":\"https://app.pulumi.com/acme/web/production\"\x7d]"),
      exitOk := true, nanos := 800000000 }
  else { stdout := [], exitOk := false, nanos := 300000000 }

/-- A `pulumi` that exits with an error whatever it is asked. -/
def failingPulumi : Pulumi := fun _ => { stdout := [], exitOk := false, nanos := 300000000 }

/-- What `json.Marshal` writes for `exampleSnapshot`. -/
def exampleRaw : GoString :=
  str ("\x7b\"last_update\":\"2025-01-15T10:30:00Z\",\"fetched_at\":\"2025-01-15T10:31:00Z\","
    ++ "\"project_name\":\"\",\"stack_name\":\"dev\",\"last_status\":\"succeeded\","
    ++ "\"workspace_mtime\":1234567890,\"resource_count\":42\x7d")

/-- What `json.Marshal` writes for `snapshotInvalidUTF8`. -/
def invalidUTF8Raw : GoString :=
  str ("\x7b\"last_update\":\"2025-01-15T10:30:00Z\",\"fetched_at\":\"2025-01-15T10:31:00Z\","
    ++ "\"project_name\":\"\\ufffd\",\"stack_name\":\"dev\",\"last_status\":\"succeeded\","
    ++ "\"workspace_mtime\":1234567890,\"resource_count\":42\x7d")

/-- The working directory of the examples. -/
def projectDir : GoString := str "/work/app"

/-- An environment in which the project `web` has one workspace file, last
modified at the instant 1234567890. -/
def projectEnv : Env :=
  { home := str "/home/dev"
    tmpdir := []
    glob := fun pat =>
      if pat = str "/home/dev/.pulumi/workspaces/web-*-workspace.json" then
        some [str "/home/dev/.pulumi/workspaces/web-0f3a-workspace.json"]
      else some []
    statModTime := fun path =>
      if path = str "/home/dev/.pulumi/workspaces/web-0f3a-workspace.json" then some 1234567890
      else none }

/-- Storage that holds the `Pulumi.yaml` of the project `web` and nothing
else. -/
def projectFS : FS :=
  { files := fun path =>
      if path = str "/work/app/Pulumi.yaml" then some (str "name: web\nruntime: go\n") else none
    writable := fun _ => true }

/-- The arguments of the primary query for a directory. -/
def stackLsArgs (cwd : GoString) : List GoString :=
  [str "stack", str "ls", str "--json", str "--cwd", cwd]

/-- The arguments of the secondary query for a directory. -/
def stackHistoryArgs (cwd : GoString) : List GoString :=
  [str "stack", str "history", str "--json", str "--page-size", str "1", str "--cwd", cwd]

/-- A snapshot of the project `web` under the fingerprint of `projectEnv`. -/
def projectSnapshot : PulumiData := { exampleSnapshot with ProjectName := str "web" }

/-- The world of the project before any run: its `Pulumi.yaml`, no cache
file, the clock at `exampleNow`, no subprocess so far. -/
def projectWorld : World := ⟨projectFS, exampleNow, []⟩

/-- The world of the project after `projectSnapshot` was cached. -/
def cachedWorld : World :=
  ⟨writeCache projectEnv projectFS projectDir projectSnapshot, exampleNow, []⟩

/-- What the reference decoder reads from the output of `examplePulumi` for
`stack ls`. -/
def exampleEntries : List StackListEntry :=
  [⟨str "acme/web/staging", [], [], 7, false, false⟩,
   ⟨str "acme/web/production", str "2025-01-15T10:30:00.000Z",
    str "https://app.pulumi.com/acme/web/production", 42, true, false⟩]

/-- What the primary query yields in `projectWorld` with `examplePulumi`,
which runs for 0.8 seconds. -/
def exampleAcquired : PulumiData :=
  { LastUpdate := ⟨1736937000000000000⟩, FetchedAt := ⟨1736937070800000000⟩, ProjectName := [],
    StackName := str "production", LastStatus := [], WorkspaceMtime := 0, ResourceCount := 42 }

/-- The snapshot that `getPulumiData` returns in `projectWorld` with
`examplePulumi`: what the primary query yields, with the project name and the
fingerprint. -/
def exampleReturned : PulumiData :=
  { exampleAcquired with ProjectName := str "web", WorkspaceMtime := 1234567890 }

/-- The storage of the project when no file can be written, as with a
temporary directory that does not exist or is read-only. -/
def readonlyFS : FS := { projectFS with writable := fun _ => false }

/-- The world of the project on that storage. -/
def readonlyWorld : World := ⟨readonlyFS, exampleNow, []⟩

/-- Twenty seconds after `exampleNow`: the time of a later invocation, 19.2
seconds after `exampleReturned` was fetched. -/
def exampleLater : Time := ⟨1736937090000000000⟩

/-! ## Splitting and prefixes -/

theorem stringsSplit_shape (sep : UInt8) (s : GoString) :
    ∃ init r p, stringsSplit sep s = init ++ [r] ∧ sep ∉ r ∧ s = p ++ r ∧
      (p = [] ∨ p.getLast? = some sep) ∧ (init = [] ↔ p = []) := by
  induction s with
  | nil => exact ⟨[], [], [], by simp [stringsSplit]⟩
  | cons c cs ih =>
    obtain ⟨init, r, p, hsplit, hr, hcs, hp, hiff⟩ := ih
    by_cases hc : c = sep
    · refine ⟨[] :: init, r, c :: p, ?_, hr, ?_, ?_, ?_⟩
      · simp [stringsSplit, hc, hsplit]
      · simp [hcs]
      · right
        rcases hp with hp | hp
        · simp [hp, hc]
        · cases p with
          | nil => simp at hp
          | cons a as => simpa [List.getLast?_cons_cons] using hp
      · simp
    · cases init with
      | nil =>
        have hp0 : p = [] := hiff.mp rfl
        refine ⟨[], c :: r, [], ?_, ?_, ?_, Or.inl rfl, by simp⟩
        · simp [stringsSplit, hc, hsplit]
        · simp [hr, Ne.symm hc]
        · simp [hcs, hp0]
      | cons i0 is =>
        have hp0 : p ≠ [] := fun h => by simpa using hiff.mpr h
        refine ⟨(c :: i0) :: is, r, c :: p, ?_, hr, ?_, ?_, ?_⟩
        · simp [stringsSplit, hc, hsplit]
        · simp [hcs]
        · right
          rcases hp with hp | hp
          · exact absurd hp hp0
          · cases p with
            | nil => exact absurd rfl hp0
            | cons a as => simpa [List.getLast?_cons_cons] using hp
        · simp

theorem stringsCutPrefix_eq_some (s pre r : GoString) :
    stringsCutPrefix s pre = some r ↔ s = pre ++ r := by
  induction pre generalizing s with
  | nil => simp [stringsCutPrefix, eq_comm]
  | cons p ps ih =>
    cases s with
    | nil => simp [stringsCutPrefix]
    | cons c cs =>
      by_cases h : c = p
      · simp [stringsCutPrefix, h, ih]
      · simp [stringsCutPrefix, h]

theorem stringsCutPrefix_eq_none (s pre : GoString) :
    stringsCutPrefix s pre = none ↔ ¬ pre <+: s := by
  constructor
  · intro h ⟨r, hr⟩
    have := (stringsCutPrefix_eq_some s pre r).mpr hr.symm
    simp [h] at this
  · intro h
    cases hc : stringsCutPrefix s pre with
    | none => rfl
    | some r => exact absurd ⟨r, ((stringsCutPrefix_eq_some s pre r).mp hc).symm⟩ h

theorem readProjectNameLines_spec (lines : List GoString) :
    (∃ pre line post rest, lines = pre ++ line :: post ∧
        (∀ l ∈ pre, ¬ str "name:" <+: stringsTrimSpace l) ∧
        stringsTrimSpace line = str "name:" ++ rest ∧
        readProjectNameLines lines = stringsTrimSpace rest) ∨
      ((∀ l ∈ lines, ¬ str "name:" <+: stringsTrimSpace l) ∧ readProjectNameLines lines = []) := by
  induction lines with
  | nil => right; simp [readProjectNameLines]
  | cons line rest ih =>
    cases hc : stringsCutPrefix (stringsTrimSpace line) (str "name:") with
    | some val =>
      left
      refine ⟨[], line, rest, val, rfl, by simp, (stringsCutPrefix_eq_some _ _ _).mp hc, ?_⟩
      simp [readProjectNameLines, hc]
    | none =>
      have hno := (stringsCutPrefix_eq_none _ _).mp hc
      rcases ih with ⟨pre, l, post, r, hl, hpre, hline, hres⟩ | ⟨hall, hres⟩
      · left
        refine ⟨line :: pre, l, post, r, by simp [hl], ?_, hline, ?_⟩
        · intro x hx
          rcases List.mem_cons.mp hx with h | h
          · exact h ▸ hno
          · exact hpre x h
        · simp [readProjectNameLines, hc, hres]
      · right
        refine ⟨?_, by simp [readProjectNameLines, hc, hres]⟩
        intro x hx
        rcases List.mem_cons.mp hx with h | h
        · exact h ▸ hno
        · exact hall x h

/-! ## C7: the display name is the last segment -/

/-- C7. For every string `name` (the empty one and those ending in a slash
included) `extractStackName` returns a value (no index is out of range): the
last slash-delimited segment of `name`. The result holds no slash and `name`
is `p ++ result` with `p` empty or ending in a slash; so `dev`, `myorg/dev` and
`myorg/myproject/production` give `dev`, `dev` and `production`. -/
theorem extractStackName_last_segment (name : GoString) :
    (∃ r p, extractStackName name = some r ∧ (0x2f : UInt8) ∉ r ∧ name = p ++ r ∧
      (p = [] ∨ p.getLast? = some 0x2f)) ∧
    extractStackName (str "dev") = some (str "dev") ∧
    extractStackName (str "myorg/dev") = some (str "dev") ∧
    extractStackName (str "myorg/myproject/production") = some (str "production") ∧
    extractStackName (str "") = some (str "") ∧
    extractStackName (str "myorg/") = some (str "") := by
  refine ⟨?_, by decide, by decide, by decide, by decide, by decide⟩
  obtain ⟨init, r, p, hsplit, hr, hname, hp, -⟩ := stringsSplit_shape 0x2f name
  exact ⟨r, p, by simp [extractStackName, hsplit], hr, hname, hp⟩

/-! ## C10: the project name -/

/-- C10. For every content of `Pulumi.yaml`, `readProjectName` returns the
trimmed text after `name:` on the first line (lines are separated by a line
feed) whose trimmed form starts with `name:`, and the empty string when no
line does, also for an empty or a missing file. -/
theorem readProjectName_first_name_line (fs : FS) (cwd : GoString) :
    (fs.files (filepathJoin [cwd, str "Pulumi.yaml"]) = none → readProjectName fs cwd = []) ∧
    (∀ data, fs.files (filepathJoin [cwd, str "Pulumi.yaml"]) = some data →
      (∃ pre line post rest, stringsSplit 0x0a data = pre ++ line :: post ∧
          (∀ l ∈ pre, ¬ str "name:" <+: stringsTrimSpace l) ∧
          stringsTrimSpace line = str "name:" ++ rest ∧
          readProjectName fs cwd = stringsTrimSpace rest) ∨
        ((∀ l ∈ stringsSplit 0x0a data, ¬ str "name:" <+: stringsTrimSpace l) ∧
          readProjectName fs cwd = [])) ∧
    (fs.files (filepathJoin [cwd, str "Pulumi.yaml"]) = some (str "name: my-project\nruntime: go\n") →
      readProjectName fs cwd = str "my-project") ∧
    (fs.files (filepathJoin [cwd, str "Pulumi.yaml"]) =
        some (str "name: pulumi-voting-app\nruntime:\n  name: nodejs\n") →
      readProjectName fs cwd = str "pulumi-voting-app") ∧
    (fs.files (filepathJoin [cwd, str "Pulumi.yaml"]) = some (str "runtime: go\ndescription: test\n") →
      readProjectName fs cwd = str "") ∧
    (fs.files (filepathJoin [cwd, str "Pulumi.yaml"]) = some (str "") →
      readProjectName fs cwd = str "") := by
  refine ⟨?_, ?_, ?_, ?_, ?_, ?_⟩
  · intro h
    simp [readProjectName, h]
  · intro data h
    simpa [readProjectName, h] using readProjectNameLines_spec (stringsSplit 0x0a data)
  all_goals
    intro h
    simp only [readProjectName, h]
    decide

/-! ## The calendar -/

theorem yearOfEra_spec (doe : Int) (h0 : 0 ≤ doe) (h1 : doe < 146097) :
    0 ≤ (yearOfEra doe).1 ∧ (yearOfEra doe).1 < 400 ∧ 0 ≤ (yearOfEra doe).2 ∧
    (yearOfEra doe).2 ≤ 365 ∧
    doe = (yearOfEra doe).1 * 365 + (yearOfEra doe).1 / 4 - (yearOfEra doe).1 / 100
      + (yearOfEra doe).2 ∧
    ((yearOfEra doe).2 = 365 → ((yearOfEra doe).1 + 1) % 4 = 0 ∧
      (((yearOfEra doe).1 + 1) % 100 ≠ 0 ∨ ((yearOfEra doe).1 + 1) % 400 = 0)) := by
  simp only [yearOfEra]
  generalize hc : min (doe / 36524) 3 = c
  have hc0 : 0 ≤ c := by omega
  have hc3 : c ≤ 3 := by omega
  generalize he : min ((doe - 36524 * c) % 1461 / 365) 3 = e
  have he0 : 0 ≤ e := by omega
  have he3 : e ≤ 3 := by omega
  have hq0 : 0 ≤ (doe - 36524 * c) / 1461 := by omega
  have hq24 : (doe - 36524 * c) / 1461 ≤ 24 := by omega
  have hlast : 4 ≤ doe / 36524 → doe = 146096 := by omega
  generalize hq : (doe - 36524 * c) / 1461 = q at *
  interval_cases c <;> interval_cases e <;> omega

theorem monthDay_spec (doy : Int) (h0 : 0 ≤ doy) (h1 : doy ≤ 365) :
    1 ≤ (monthDay doy).1 ∧ (monthDay doy).1 ≤ 12 ∧ 1 ≤ (monthDay doy).2 ∧ (monthDay doy).2 ≤ 31 ∧
    ((monthDay doy).1 = 2 → (monthDay doy).2 ≤ 29 ∧ ((monthDay doy).2 = 29 → doy = 365)) ∧
    ((monthDay doy).1 = 4 ∨ (monthDay doy).1 = 6 ∨ (monthDay doy).1 = 9 ∨ (monthDay doy).1 = 11 →
      (monthDay doy).2 ≤ 30) ∧
    (153 * (if (monthDay doy).1 > 2 then (monthDay doy).1 - 3 else (monthDay doy).1 + 9) + 2) / 5
      + (monthDay doy).2 - 1 = doy := by
  simp only [monthDay]
  split_ifs <;> omega

/-- The civil date that `civilFromDays` gives is a date of the calendar, and
`daysFromCivil` leads back from it. -/
theorem civilFromDays_spec (z : Int) :
    1 ≤ (civilFromDays z).2.1 ∧ (civilFromDays z).2.1 ≤ 12 ∧ 1 ≤ (civilFromDays z).2.2 ∧
    (civilFromDays z).2.2 ≤ 31 ∧
    ((civilFromDays z).2.1 = 4 ∨ (civilFromDays z).2.1 = 6 ∨ (civilFromDays z).2.1 = 9 ∨
      (civilFromDays z).2.1 = 11 → (civilFromDays z).2.2 ≤ 30) ∧
    ((civilFromDays z).2.1 = 2 → (civilFromDays z).2.2 ≤ 29 ∧
      ((civilFromDays z).2.2 = 29 → (civilFromDays z).1 % 4 = 0 ∧
        ((civilFromDays z).1 % 100 ≠ 0 ∨ (civilFromDays z).1 % 400 = 0))) ∧
    daysFromCivil (civilFromDays z).1 (civilFromDays z).2.1 (civilFromDays z).2.2 = z := by
  have hdoe0 : 0 ≤ (z + 719468) % 146097 := Int.emod_nonneg _ (by norm_num)
  have hdoe1 : (z + 719468) % 146097 < 146097 := Int.emod_lt_of_pos _ (by norm_num)
  have hdiv := Int.ediv_add_emod (z + 719468) 146097
  obtain ⟨y0, y1, d0, d1, hsum, hleap⟩ := yearOfEra_spec _ hdoe0 hdoe1
  obtain ⟨m1, m12, dd1, dd31, hfeb, h30, hinv⟩ := monthDay_spec _ d0 d1
  simp only [civilFromDays, daysFromCivil]
  generalize (yearOfEra ((z + 719468) % 146097)).1 = yoe at *
  generalize (yearOfEra ((z + 719468) % 146097)).2 = doy at *
  generalize (monthDay doy).1 = m at *
  generalize (monthDay doy).2 = d at *
  generalize (z + 719468) / 146097 = era at *
  generalize (z + 719468) % 146097 = doe at *
  refine ⟨m1, m12, dd1, dd31, h30, ?_, ?_⟩
  · intro hm
    obtain ⟨h29, hd⟩ := hfeb hm
    refine ⟨h29, fun hd29 => ?_⟩
    obtain ⟨l1, l2⟩ := hleap (hd hd29)
    have hm2 : m ≤ 2 := by omega
    simp only [hm2, if_true]
    omega
  · have hera : (yoe + era * 400) / 400 = era := by omega
    have hsub : yoe + era * 400 + 1 - 1 = yoe + era * 400 := by ring
    have hyoe : yoe + era * 400 - era * 400 = yoe := by ring
    by_cases hm : m ≤ 2
    · have hm' : ¬ m > 2 := by omega
      simp only [hm, hm', if_true, if_false, hsub, hera, hyoe] at hinv ⊢
      omega
    · have hm' : m > 2 := by omega
      simp only [hm, hm', if_true, if_false, hera, hyoe] at hinv ⊢
      omega

/-! ## Digits -/

theorem digitVal_digitChar : ∀ k < 10, digitVal (digitChar k) = some k := by decide

theorem readDigits_digitsFixed (n v : Nat) (rest : GoString) :
    readDigits n (digitsFixed n v ++ rest) = some (v % 10 ^ n, rest) := by
  induction n with
  | zero => simp [readDigits, digitsFixed, Nat.mod_one]
  | succ n ih =>
    have hk : v / 10 ^ n % 10 < 10 := Nat.mod_lt _ (by norm_num)
    simp only [digitsFixed, List.cons_append, readDigits, digitVal_digitChar _ hk, List.append_eq,
      ih]
    rw [Nat.mod_pow_succ, Nat.mul_comm, Nat.add_comm]

theorem digitsFixed_length (n v : Nat) : (digitsFixed n v).length = n := by
  induction n with
  | zero => rfl
  | succ n ih => simp [digitsFixed, ih]

theorem digitsFixed_digits (n v : Nat) : ∀ c ∈ digitsFixed n v, (digitVal c).isSome = true := by
  induction n with
  | zero => simp [digitsFixed]
  | succ n ih =>
    intro c hc
    simp only [digitsFixed, List.mem_cons] at hc
    rcases hc with hc | hc
    · rw [hc, digitVal_digitChar _ (Nat.mod_lt _ (by norm_num))]
      rfl
    · exact ih c hc

theorem readField_digitsFixed (sep : GoString) (n v : Nat) (rest : GoString) :
    readField sep n (digitsFixed n v ++ (sep ++ rest)) = some (v % 10 ^ n, rest) := by
  simp [readField, readDigits_digitsFixed, (stringsCutPrefix_eq_some _ sep rest).mpr rfl]

theorem dropTrailingZeros_spec (l : GoString) :
    ∃ k, l = dropTrailingZeros l ++ List.replicate k 0x30 ∧
      (dropTrailingZeros l = [] → ∀ c ∈ l, c = 0x30) := by
  induction l with
  | nil => exact ⟨0, by simp [dropTrailingZeros]⟩
  | cons c cs ih =>
    obtain ⟨k, hk, hz⟩ := ih
    cases hd : dropTrailingZeros cs with
    | nil =>
      rw [hd] at hk
      by_cases hc : c = 0x30
      · refine ⟨k + 1, ?_, ?_⟩
        · simp only [dropTrailingZeros, hd, hc, if_true, List.nil_append] at hk ⊢
          rw [hk]
          simp [List.replicate_succ]
        · intro _ x hx
          rcases List.mem_cons.mp hx with h | h
          · rw [h, hc]
          · exact hz hd x h
      · refine ⟨k, ?_, ?_⟩
        · simp only [dropTrailingZeros, hd, hc, if_false]
          simpa using hk
        · intro h
          simp [dropTrailingZeros, hd, hc] at h
    | cons r rs =>
      rw [hd] at hk
      refine ⟨k, ?_, ?_⟩
      · simp only [dropTrailingZeros, hd]
        rw [List.cons_append, ← hk]
      · intro h
        simp [dropTrailingZeros, hd] at h

theorem dropTrailingZeros_subset (l : GoString) : ∀ c ∈ dropTrailingZeros l, c ∈ l := by
  obtain ⟨k, hk, -⟩ := dropTrailingZeros_spec l
  intro c hc
  rw [hk]
  exact List.mem_append_left _ hc

theorem digitsFixed_all_zero (n v : Nat) (h : ∀ c ∈ digitsFixed n v, c = 0x30) :
    v % 10 ^ n = 0 := by
  have hr := readDigits_digitsFixed n v []
  have hz : ∀ (m : Nat) (l : GoString), l.length = m → (∀ c ∈ l, c = 0x30) →
      readDigits m l = some (0, []) := by
    intro m
    induction m with
    | zero =>
      intro l hl _
      have : l = [] := List.length_eq_zero.mp hl
      simp [this, readDigits]
    | succ m ihm =>
      intro l hl hall
      cases l with
      | nil => simp at hl
      | cons c cs =>
        have hc : c = 0x30 := hall c (List.mem_cons_self _ _)
        have hcs := ihm cs (by simpa using hl) (fun x hx => hall x (List.mem_cons_of_mem _ hx))
        have h0 : digitVal 0x30 = some 0 := by decide
        simp [readDigits, hc, hcs, h0]
  rw [List.append_nil, hz n _ (digitsFixed_length n v) h] at hr
  simpa using hr.symm

theorem takeWhile_append_stop {p : UInt8 → Bool} (l : GoString) (c : UInt8) (t : GoString)
    (hl : ∀ x ∈ l, p x = true) (hc : p c = false) : (l ++ c :: t).takeWhile p = l := by
  induction l with
  | nil => simp [List.takeWhile, hc]
  | cons x xs ih =>
    have hx : p x = true := hl x (List.mem_cons_self _ _)
    simp [List.takeWhile, hx, ih (fun y hy => hl y (List.mem_cons_of_mem _ hy))]

theorem refParseFraction_formatFraction (ns : Nat) (hns : ns < 10 ^ 9) :
    refParseFraction (formatFraction ns ++ [0x5a]) = (ns, [0x5a]) := by
  by_cases h0 : ns = 0
  · simp [formatFraction, h0, refParseFraction]
  · obtain ⟨k, hk, hz⟩ := dropTrailingZeros_spec (digitsFixed 9 ns)
    have hne : dropTrailingZeros (digitsFixed 9 ns) ≠ [] := by
      intro h
      have := digitsFixed_all_zero 9 ns (hz h)
      rw [Nat.mod_eq_of_lt hns] at this
      exact h0 this
    have hdig : ∀ x ∈ dropTrailingZeros (digitsFixed 9 ns), (digitVal x).isSome = true :=
      fun x hx => digitsFixed_digits 9 ns x (dropTrailingZeros_subset _ x hx)
    have htw := takeWhile_append_stop (p := fun b => (digitVal b).isSome)
      (dropTrailingZeros (digitsFixed 9 ns)) 0x5a [] hdig (by decide)
    have hlen : (dropTrailingZeros (digitsFixed 9 ns)).length + k = 9 := by
      have := congrArg List.length hk
      simp only [digitsFixed_length, List.length_append, List.length_replicate] at this
      omega
    have hnine : (dropTrailingZeros (digitsFixed 9 ns) ++ List.replicate 9 0x30).take 9
        = digitsFixed 9 ns := by
      have h9 : List.replicate 9 (0x30 : UInt8) = List.replicate k 0x30
          ++ List.replicate (9 - k) 0x30 := by
        rw [← List.replicate_add]
        congr 1
        omega
      rw [h9, ← List.append_assoc, ← hk, List.take_append_of_le_length (by simp [digitsFixed_length])]
      exact List.take_of_length_le (by simp [digitsFixed_length])
    have hread := readDigits_digitsFixed 9 ns []
    rw [List.append_nil, Nat.mod_eq_of_lt hns] at hread
    simp only [formatFraction, h0, if_false, List.cons_append, refParseFraction, htw, hne, hnine,
      hread, List.drop_left]
    rfl

/-! ## Timestamps: parsing what was formatted -/

theorem readField_single (c : UInt8) (n v : Nat) (rest : GoString) :
    readField [c] n (digitsFixed n v ++ c :: rest) = some (v % 10 ^ n, rest) :=
  readField_digitsFixed [c] n v rest

theorem daysIn_of_civil (Y M D : Int) (hM1 : 1 ≤ M) (hM12 : M ≤ 12) (hD1 : 1 ≤ D)
    (hD31 : D ≤ 31) (h30 : M = 4 ∨ M = 6 ∨ M = 9 ∨ M = 11 → D ≤ 30)
    (hfeb : M = 2 → D ≤ 29 ∧ (D = 29 → Y % 4 = 0 ∧ (Y % 100 ≠ 0 ∨ Y % 400 = 0))) :
    D.toNat ≤ daysIn Y.toNat M.toNat := by
  unfold daysIn
  by_cases hm : M = 2
  · obtain ⟨h29, hleap⟩ := hfeb hm
    have hm2 : M.toNat = 2 := by omega
    simp only [hm2, if_true]
    split_ifs with hl
    · omega
    · by_cases hd : D = 29
      · obtain ⟨l1, l2⟩ := hleap hd
        exfalso
        apply hl
        omega
      · omega
  · have hm2 : M.toNat ≠ 2 := by omega
    simp only [hm2, if_false]
    split_ifs with h4
    · have := h30 (by omega)
      omega
    · omega

theorem refInstant_of_civil (Y M D days rem nsec : Int) (hY : 0 ≤ Y) (hM1 : 1 ≤ M)
    (hM12 : M ≤ 12) (hD1 : 1 ≤ D) (hD31 : D ≤ 31)
    (h30 : M = 4 ∨ M = 6 ∨ M = 9 ∨ M = 11 → D ≤ 30)
    (hfeb : M = 2 → D ≤ 29 ∧ (D = 29 → Y % 4 = 0 ∧ (Y % 100 ≠ 0 ∨ Y % 400 = 0)))
    (hdays : daysFromCivil Y M D = days) (hrem0 : 0 ≤ rem) (hrem1 : rem < 86400)
    (hns0 : 0 ≤ nsec) :
    refInstant Y.toNat M.toNat D.toNat (rem / 3600).toNat (rem % 3600 / 60).toNat (rem % 60).toNat
      nsec.toNat 0 = some ⟨(days * 86400 + rem) * 1000000000 + nsec⟩ := by
  have hdin := daysIn_of_civil Y M D hM1 hM12 hD1 hD31 h30 hfeb
  have hcond : 1 ≤ M.toNat ∧ M.toNat ≤ 12 ∧ 1 ≤ D.toNat ∧ D.toNat ≤ daysIn Y.toNat M.toNat ∧
      (rem / 3600).toNat < 24 ∧ (rem % 3600 / 60).toNat < 60 ∧ (rem % 60).toNat < 60 := by
    refine ⟨by omega, by omega, by omega, hdin, by omega, by omega, by omega⟩
  unfold refInstant
  rw [if_pos hcond]
  have e1 : ((Y.toNat : Nat) : Int) = Y := Int.toNat_of_nonneg hY
  have e2 : ((M.toNat : Nat) : Int) = M := Int.toNat_of_nonneg (by omega)
  have e3 : ((D.toNat : Nat) : Int) = D := Int.toNat_of_nonneg (by omega)
  have e4 : (((rem / 3600).toNat : Nat) : Int) = rem / 3600 := Int.toNat_of_nonneg (by omega)
  have e5 : (((rem % 3600 / 60).toNat : Nat) : Int) = rem % 3600 / 60 :=
    Int.toNat_of_nonneg (by omega)
  have e6 : (((rem % 60).toNat : Nat) : Int) = rem % 60 := Int.toNat_of_nonneg (by omega)
  have e7 : ((nsec.toNat : Nat) : Int) = nsec := Int.toNat_of_nonneg hns0
  rw [e1, e2, e3, e4, e5, e6, e7, hdays]
  congr 2
  omega

/-- The reference parser reads back every timestamp that `formatRFC3339Nano`
writes. -/
theorem refParseTime_format (t : Time) (s : GoString) (h : formatRFC3339Nano t = some s) :
    refParseTime s = some t := by
  obtain ⟨u⟩ := t
  have hspec := civilFromDays_spec (u / 10 ^ 9 / 86400)
  unfold formatRFC3339Nano at h
  simp only at h hspec
  rcases hciv : civilFromDays (u / 10 ^ 9 / 86400) with ⟨Y, M, D⟩
  rw [hciv] at h hspec
  simp only at h hspec
  obtain ⟨hM1, hM12, hD1, hD31, h30, hfeb, hdays⟩ := hspec
  split_ifs at h with hy
  have hY0 : 0 ≤ Y := by omega
  have hY9 : Y ≤ 9999 := by omega
  have hrem0 : 0 ≤ u / 10 ^ 9 % 86400 := Int.emod_nonneg _ (by norm_num)
  have hrem1 : u / 10 ^ 9 % 86400 < 86400 := Int.emod_lt_of_pos _ (by norm_num)
  have hns0 : 0 ≤ u % 10 ^ 9 := Int.emod_nonneg _ (by norm_num)
  have hns1 : u % 10 ^ 9 < 10 ^ 9 := Int.emod_lt_of_pos _ (by norm_num)
  have hinst := refInstant_of_civil Y M D _ _ _ hY0 hM1 hM12 hD1 hD31 h30 hfeb hdays hrem0 hrem1 hns0
  have hfrac := refParseFraction_formatFraction (u % 10 ^ 9).toNat (by omega)
  have s1 : str "-" = [0x2d] := by decide
  have s2 : str "T" = [0x54] := by decide
  have s3 : str ":" = [0x3a] := by decide
  have m1 : Y.toNat % 10 ^ 4 = Y.toNat := Nat.mod_eq_of_lt (by omega)
  have m2 : M.toNat % 10 ^ 2 = M.toNat := Nat.mod_eq_of_lt (by omega)
  have m3 : D.toNat % 10 ^ 2 = D.toNat := Nat.mod_eq_of_lt (by omega)
  have m4 : (u / 10 ^ 9 % 86400 / 3600).toNat % 10 ^ 2 = (u / 10 ^ 9 % 86400 / 3600).toNat :=
    Nat.mod_eq_of_lt (by omega)
  have m5 : (u / 10 ^ 9 % 86400 % 3600 / 60).toNat % 10 ^ 2
      = (u / 10 ^ 9 % 86400 % 3600 / 60).toNat := Nat.mod_eq_of_lt (by omega)
  have m6 : (u / 10 ^ 9 % 86400 % 60).toNat % 10 ^ 2 = (u / 10 ^ 9 % 86400 % 60).toNat :=
    Nat.mod_eq_of_lt (by omega)
  have hu : (u / 10 ^ 9 / 86400 * 86400 + u / 10 ^ 9 % 86400) * 1000000000 + u % 10 ^ 9 = u := by
    omega
  rw [hu] at hinst
  cases h
  simp only [refParseTime, s1, s2, s3, List.append_assoc, List.cons_append, readField_single,
    readDigits_digitsFixed, m1, m2, m3, m4, m5, m6, hfrac, refParseZone, hinst]

/-! ## Integers: parsing what was formatted -/

theorem digitChar_ne_zero : ∀ k < 10, 1 ≤ k → digitChar k ≠ 0x30 := by decide

theorem digitChar_ne_minus : ∀ k < 10, digitChar k ≠ 0x2d := by decide

theorem isDigit_digitChar (k : Nat) (hk : k < 10) : isDigit (digitChar k) = true := by
  simp [isDigit, digitVal_digitChar k hk]

theorem formatNatAux_spec (fuel n : Nat) (h : n < fuel) :
    (∀ c ∈ formatNatAux fuel n, isDigit c = true) ∧
    (∃ k r, k < 10 ∧ formatNatAux fuel n = digitChar k :: r ∧ (1 ≤ n → 1 ≤ k) ∧ (n = 0 → r = [])) ∧
    (formatNatAux fuel n).foldl (fun acc b => acc * 10 + (digitVal b).getD 0) 0 = n := by
  induction fuel generalizing n with
  | zero => omega
  | succ fuel ih =>
    by_cases hn : n < 10
    · simp only [formatNatAux, hn, if_true]
      refine ⟨?_, ⟨n, [], hn, rfl, fun h1 => h1, fun _ => rfl⟩, ?_⟩
      · intro c hc
        rw [List.mem_singleton.mp hc]
        exact isDigit_digitChar n hn
      · simp [digitVal_digitChar n hn]
    · obtain ⟨hall, ⟨k, r, hk, hkr, hk1, -⟩, hfold⟩ := ih (n / 10) (by omega)
      have hm : n % 10 < 10 := Nat.mod_lt _ (by norm_num)
      simp only [formatNatAux, hn, if_false]
      refine ⟨?_, ⟨k, r ++ [digitChar (n % 10)], hk, by rw [hkr]; rfl, fun _ => hk1 (by omega),
        fun h0 => by omega⟩, ?_⟩
      · intro c hc
        rcases List.mem_append.mp hc with hc | hc
        · exact hall c hc
        · rw [List.mem_singleton.mp hc]
          exact isDigit_digitChar _ hm
      · rw [List.foldl_append, hfold]
        simp only [List.foldl_cons, List.foldl_nil, digitVal_digitChar _ hm, Option.getD_some]
        omega

theorem formatNat_spec (n : Nat) :
    (∀ c ∈ formatNat n, isDigit c = true) ∧
    (∃ k r, k < 10 ∧ formatNat n = digitChar k :: r ∧ (1 ≤ n → 1 ≤ k) ∧ (n = 0 → r = [])) ∧
    (formatNat n).foldl (fun acc b => acc * 10 + (digitVal b).getD 0) 0 = n :=
  formatNatAux_spec (n + 1) n (Nat.lt_succ_self n)

theorem any_not_digit_eq_false (l : GoString) (h : ∀ c ∈ l, isDigit c = true) :
    l.any (fun b => (digitVal b).isNone) = false := by
  rw [List.any_eq_false]
  intro c hc
  have := h c hc
  simp only [isDigit] at this
  cases hd : digitVal c with
  | none => simp [hd] at this
  | some v => simp

/-- The reference decoder reads an int64 back from its decimal form. -/
theorem refInt_formatInt (m : Int) (h0 : -(2 ^ 63) ≤ m) (h1 : m < 2 ^ 63) :
    refInt (formatInt m) = some m := by
  by_cases hneg : m < 0
  · obtain ⟨hall, ⟨k, r, hk, hkr, -, -⟩, hfold⟩ := formatNat_spec m.natAbs
    have hne : formatNat m.natAbs ≠ [] := by simp [hkr]
    have hany := any_not_digit_eq_false _ hall
    have hv : -((m.natAbs : Nat) : Int) = m := by omega
    simp only [formatInt, hneg, if_true, refInt, List.head?_cons, List.drop_succ_cons, List.drop_zero,
      hne, hany, hfold, false_or, hv]
    rw [if_pos (And.intro h0 h1)]
    simp
  · obtain ⟨hall, ⟨k, r, hk, hkr, -, -⟩, hfold⟩ := formatNat_spec m.toNat
    have hne : formatNat m.toNat ≠ [] := by simp [hkr]
    have hany := any_not_digit_eq_false _ hall
    have hhead : (formatNat m.toNat).head? ≠ some 0x2d := by
      rw [hkr]
      simpa using digitChar_ne_minus k hk
    have hv : ((m.toNat : Nat) : Int) = m := Int.toNat_of_nonneg (by omega)
    simp only [formatInt, hneg, if_false, refInt, hhead, hne, hany, hfold, false_or, hv]
    rw [if_pos (And.intro h0 h1)]
    simp

theorem formatInt_head (m : Int) :
    ∃ c r, formatInt m = c :: r ∧ (c = 0x2d ∨ isDigit c = true) := by
  by_cases hneg : m < 0
  · exact ⟨0x2d, formatNat m.natAbs, by simp [formatInt, hneg], Or.inl rfl⟩
  · obtain ⟨-, ⟨k, r, hk, hkr, -, -⟩, -⟩ := formatNat_spec m.toNat
    exact ⟨digitChar k, r, by simp [formatInt, hneg, hkr], Or.inr (isDigit_digitChar k hk)⟩

/-- The reference scanner takes the decimal form of an integer as one number
when a character that cannot continue a number follows. -/
theorem refNumber_formatInt (m : Int) (c : UInt8) (t : GoString) (hc : isDigit c = false)
    (hdot : c ≠ 0x2e) (he : c ≠ 0x65) (hE : c ≠ 0x45) :
    refNumber (formatInt m ++ c :: t) = some (formatInt m, c :: t) := by
  have key : ∀ (sign ds : GoString), (sign = [] ∨ sign = [0x2d]) →
      (∀ x ∈ ds, isDigit x = true) →
      (∃ k r, k < 10 ∧ ds = digitChar k :: r ∧ (k = 0 → r = [])) →
      refNumber (sign ++ (ds ++ c :: t)) = some (sign ++ ds, c :: t) := by
    intro sign ds hsign hall ⟨k, r, hk, hkr, hk0⟩
    have hsig : (if (sign ++ (ds ++ c :: t)).head? = some 0x2d then [0x2d] else ([] : GoString))
        = sign := by
      rcases hsign with hs | hs
      · rw [if_neg (by simp [hs, hkr, digitChar_ne_minus k hk]), hs]
      · rw [if_pos (by simp [hs]), hs]
    have htw := takeWhile_append_stop (p := isDigit) ds c t hall hc
    have hlead : ds.head? ≠ some 0x30 ∨ ds.length = 1 := by
      by_cases h0 : k = 0
      · right
        simp [hkr, hk0 h0]
      · left
        rw [hkr]
        simpa using digitChar_ne_zero k hk (by omega)
    have hds : ds ≠ [] := by simp [hkr]
    have hfrac : refFractionPart (c :: t) = [] := by simp [refFractionPart, hdot]
    have hexp : refExponentPart (c :: t) = [] := by simp [refExponentPart, he, hE]
    simp only [refNumber, hsig, List.drop_left, htw, hfrac, List.length_nil, List.drop_zero, hexp,
      List.append_nil]
    rw [if_pos]
    exact ⟨hds, hlead, by simp, by simp⟩
  by_cases hneg : m < 0
  · obtain ⟨hall, ⟨k, r, hk, hkr, hk1, hk0⟩, -⟩ := formatNat_spec m.natAbs
    have h := key [0x2d] (formatNat m.natAbs) (Or.inr rfl) hall
      ⟨k, r, hk, hkr, fun h0 => hk0 (by omega)⟩
    simpa only [formatInt, hneg, if_true, List.cons_append, List.nil_append] using h
  · obtain ⟨hall, ⟨k, r, hk, hkr, hk1, hk0⟩, -⟩ := formatNat_spec m.toNat
    have h := key [] (formatNat m.toNat) (Or.inl rfl) hall
      ⟨k, r, hk, hkr, fun h0 => hk0 (by omega)⟩
    simpa only [formatInt, hneg, if_false, List.nil_append] using h

/-! ## Strings: decoding what was encoded -/

/-- A well-formed UTF-8 sequence at the front of a string is recognised
whatever follows it. -/
theorem utf8TailOk_chunk (b : UInt8) (k : Nat) (rest : GoString)
    (h : utf8TailOk b k rest = true) :
    ∃ tail, tail.length + 1 = k ∧ rest = tail ++ rest.drop (k - 1) ∧
      ∀ X, utf8TailOk b k (tail ++ X) = true := by
  unfold utf8TailOk at h
  split at h
  · next b1 r => exact ⟨[b1], rfl, by simp, fun X => by simpa [utf8TailOk] using h⟩
  · next b1 b2 r => exact ⟨[b1, b2], rfl, by simp, fun X => by simpa [utf8TailOk] using h⟩
  · next b1 b2 b3 r => exact ⟨[b1, b2, b3], rfl, by simp, fun X => by simpa [utf8TailOk] using h⟩
  · cases h

/-- A well-formed UTF-8 sequence at the front of a string is recognised
whatever follows it. -/
theorem utf8RuneLen_chunk (b : UInt8) (rest : GoString) (n : Nat) (hb : ¬ b < 0x80)
    (h : utf8RuneLen (b :: rest) = some n) :
    ∃ tail, tail.length + 1 = n ∧ rest = tail ++ rest.drop (n - 1) ∧
      ∀ X, utf8RuneLen (b :: (tail ++ X)) = some n := by
  unfold utf8RuneLen at h
  simp only [hb, if_false] at h
  split_ifs at h with hok
  cases h
  obtain ⟨tail, hlen, hrest, hX⟩ := utf8TailOk_chunk b _ rest hok
  exact ⟨tail, hlen, hrest, fun X => by simp [utf8RuneLen, hb, hX X]⟩

theorem utf8Encode_fffd : utf8Encode 0xfffd = [0xef, 0xbf, 0xbd] := by decide

theorem refStringBody_quote (f : Nat) (t : GoString) :
    refStringBody (f + 1) (0x22 :: t) = some ([], t) := by
  simp [refStringBody]

/-- The decoder takes a well-formed UTF-8 sequence as it is. -/
theorem refStringBody_chunk (b : UInt8) (rest : GoString) (n f : Nat) (u : GoString)
    (hb : ¬ b < 0x80) (h : utf8RuneLen (b :: rest) = some n) :
    refStringBody (f + 1) ((b :: rest).take n ++ u)
      = (refStringBody f u).map (fun x => ((b :: rest).take n ++ x.1, x.2)) := by
  obtain ⟨tail, hlen, hrest, hX⟩ := utf8RuneLen_chunk b rest n hb h
  have htake : (b :: rest).take n = b :: tail := by
    rw [← hlen, List.take_succ_cons, hrest, List.take_left]
  have h22 : b ≠ 0x22 := fun e => hb (by rw [e]; decide)
  have h20 : ¬ b < 0x20 := by
    intro e
    apply hb
    have e1 : b.toNat < 32 := e
    show b.toNat < 128
    omega
  have h5c : b ≠ 0x5c := fun e => hb (by rw [e]; decide)
  have hrune : refRune (b :: (tail ++ u)) = (b :: tail, u) := by
    have hd : List.drop n (b :: (tail ++ u)) = u := by
      rw [← hlen, List.drop_succ_cons, List.drop_left]
    have ht : List.take n (b :: (tail ++ u)) = b :: tail := by
      rw [← hlen, List.take_succ_cons, List.take_left]
    simp only [refRune, hX u, hd, ht]
  rw [htake]
  simp only [List.cons_append, refStringBody, h22, h20, h5c, hb, if_false, List.append_eq, hrune]

/-- The decoder turns a byte that is no UTF-8 into U+FFFD, as the encoder
announced it. -/
theorem refStringBody_fffd (f : Nat) (u : GoString) :
    refStringBody (f + 1) (str "\\ufffd" ++ u)
      = (refStringBody f u).map (fun x => ([0xef, 0xbf, 0xbd] ++ x.1, x.2)) := by
  have hs : str "\\ufffd" = [0x5c, 0x75, 0x66, 0x66, 0x66, 0x64] := by decide
  have hh : readHex4 (0x66 :: 0x66 :: 0x66 :: 0x64 :: u) = some (0xfffd, u) := by
    have h1 : hexVal 0x66 = some 15 := by decide
    have h2 : hexVal 0x64 = some 13 := by decide
    simp [readHex4, h1, h2]
  have he : refEscape (0x75 :: 0x66 :: 0x66 :: 0x66 :: 0x64 :: u) = some (utf8Encode 0xfffd, u) := by
    simp [refEscape, hh]
  rw [hs]
  simp only [List.cons_append, List.nil_append, refStringBody, List.append_eq, if_true, he,
    utf8Encode_fffd]
  rw [if_neg (by decide), if_neg (by decide)]

theorem refStringBody_u202x (f : Nat) (u : GoString) (last hex : UInt8) (v : Nat)
    (hv : hexVal hex = some v) (hv8 : v = 8 ∨ v = 9)
    (hlast : utf8Encode (0x2020 + v) = [0xe2, 0x80, last]) :
    refStringBody (f + 1) (0x5c :: 0x75 :: 0x32 :: 0x30 :: 0x32 :: hex :: u)
      = (refStringBody f u).map (fun x => ([0xe2, 0x80, last] ++ x.1, x.2)) := by
  have hh : readHex4 (0x32 :: 0x30 :: 0x32 :: hex :: u) = some (0x2020 + v, u) := by
    have h1 : hexVal 0x32 = some 2 := by decide
    have h2 : hexVal 0x30 = some 0 := by decide
    simp [readHex4, h1, h2, hv]
  have he : refEscape (0x75 :: 0x32 :: 0x30 :: 0x32 :: hex :: u)
      = some (utf8Encode (0x2020 + v), u) := by
    rcases hv8 with h | h <;> simp [refEscape, hh, h]
  simp only [refStringBody, if_true, he, hlast]
  rw [if_neg (by decide), if_neg (by decide)]

theorem uint8_ofNat_toNat (b : UInt8) : UInt8.ofNat b.toNat = b := by
  apply UInt8.ext
  simp [UInt8.ofNat, UInt8.toNat, Fin.ofNat]

/-- How the encoder writes an ASCII byte, in the three shapes the decoder
tells apart: the byte itself, a one-letter escape, a `\u00` escape. -/
theorem jsonEscapeByte_shape : ∀ n < 128,
    (jsonEscapeByte (UInt8.ofNat n) = [UInt8.ofNat n] ∧ UInt8.ofNat n ≠ 0x22 ∧
      ¬ UInt8.ofNat n < 0x20 ∧ UInt8.ofNat n ≠ 0x5c) ∨
    (jsonEscapeByte (UInt8.ofNat n) = [0x5c, (jsonEscapeByte (UInt8.ofNat n)).getD 1 0] ∧
      (jsonEscapeByte (UInt8.ofNat n)).getD 1 0 ≠ 0x75 ∧
      refPlainEscape ((jsonEscapeByte (UInt8.ofNat n)).getD 1 0) = some (UInt8.ofNat n)) ∨
    (jsonEscapeByte (UInt8.ofNat n) = [0x5c, 0x75, 0x30, 0x30,
        (jsonEscapeByte (UInt8.ofNat n)).getD 4 0, (jsonEscapeByte (UInt8.ofNat n)).getD 5 0] ∧
      readHex4 [0x30, 0x30, (jsonEscapeByte (UInt8.ofNat n)).getD 4 0,
        (jsonEscapeByte (UInt8.ofNat n)).getD 5 0] = some (n, [])) := by
  decide!

theorem readHex4_append (a b c d : UInt8) (r : Nat) (u : GoString)
    (h : readHex4 [a, b, c, d] = some (r, [])) : readHex4 (a :: b :: c :: d :: u) = some (r, u) := by
  simp only [readHex4] at h ⊢
  cases ha : hexVal a <;> cases hb : hexVal b <;> cases hc : hexVal c <;> cases hd : hexVal d <;>
    simp_all

/-- The decoder reads an ASCII byte back from what the encoder wrote for it. -/
theorem refStringBody_ascii (b : UInt8) (hb : b < 0x80) (f : Nat) (u : GoString) :
    refStringBody (f + 1) (jsonEscapeByte b ++ u)
      = (refStringBody f u).map (fun x => (b :: x.1, x.2)) := by
  have hn : b.toNat < 128 := hb
  have hshape := jsonEscapeByte_shape b.toNat hn
  rw [uint8_ofNat_toNat] at hshape
  rcases hshape with ⟨h1, h22, h20, h5c⟩ | ⟨h1, hu, hp⟩ | ⟨h1, hx⟩
  · rw [h1]
    show refStringBody (f + 1) (b :: u) = _
    simp only [refStringBody, h22, h20, h5c, hb, if_false, if_true]
  · rw [h1]
    generalize (jsonEscapeByte b).getD 1 0 = c at hu hp
    have he : refEscape (c :: u) = some ([b], u) := by simp [refEscape, hu, hp]
    show refStringBody (f + 1) (0x5c :: c :: u) = _
    simp only [refStringBody, if_true, he]
    rw [if_neg (by decide), if_neg (by decide)]
    rfl
  · rw [h1]
    generalize (jsonEscapeByte b).getD 4 0 = x at hx
    generalize (jsonEscapeByte b).getD 5 0 = y at hx
    have hr := readHex4_append 0x30 0x30 x y b.toNat u hx
    have henc : utf8Encode b.toNat = [b] := by
      have : b.toNat < 0x80 := hn
      simp [utf8Encode, this, uint8_ofNat_toNat]
    have he : refEscape (0x75 :: 0x30 :: 0x30 :: x :: y :: u) = some ([b], u) := by
      have h1 : ¬ (0xd800 ≤ b.toNat ∧ b.toNat < 0xdc00) := by omega
      have h2 : ¬ (0xdc00 ≤ b.toNat ∧ b.toNat < 0xe000) := by omega
      simp only [refEscape, if_true, hr, h1, h2, if_false, henc]
    show refStringBody (f + 1) (0x5c :: 0x75 :: 0x30 :: 0x30 :: x :: y :: u) = _
    simp only [refStringBody, if_true, he]
    rw [if_neg (by decide), if_neg (by decide)]
    rfl

theorem jsonEscapeByte_length (b : UInt8) (hb : b < 0x80) : 1 ≤ (jsonEscapeByte b).length := by
  have hn : b.toNat < 128 := hb
  have hshape := jsonEscapeByte_shape b.toNat hn
  rw [uint8_ofNat_toNat] at hshape
  rcases hshape with ⟨h1, -⟩ | ⟨h1, -⟩ | ⟨h1, -⟩ <;> rw [h1] <;> simp

theorem utf8RuneLen_e2 (x y : UInt8) (rest : GoString) (n : Nat)
    (h : utf8RuneLen (0xe2 :: x :: y :: rest) = some n) : n = 3 := by
  have hs : utf8Size 0xe2 = 3 := by decide
  simp only [utf8RuneLen, hs] at h
  rw [if_neg (by decide)] at h
  split_ifs at h
  exact (Option.some.inj h).symm

/-- The decoder reads back from the encoding of a string the string coerced
to UTF-8, up to the closing quote. -/
theorem refStringBody_jsonEscape (fuel : Nat) (s : GoString) (hs : s.length ≤ fuel)
    (f2 : Nat) (t : GoString) (hf : (jsonEscape fuel s).length < f2) :
    refStringBody f2 (jsonEscape fuel s ++ 0x22 :: t) = some (toValidUTF8 fuel s, t) := by
  induction fuel generalizing s f2 with
  | zero =>
    cases f2 with
    | zero => omega
    | succ f =>
      cases s with
      | nil => simp [jsonEscape, toValidUTF8, refStringBody_quote]
      | cons b rest => simp at hs
  | succ fuel ih =>
    cases f2 with
    | zero => omega
    | succ f =>
      cases s with
      | nil => simp [jsonEscape, toValidUTF8, refStringBody_quote]
      | cons b rest =>
        have hrest : rest.length ≤ fuel := by simpa using hs
        by_cases hb : b < 0x80
        · have hlen := jsonEscapeByte_length b hb
          simp only [jsonEscape, hb, if_true, List.length_append] at hf
          simp only [jsonEscape, toValidUTF8, hb, if_true, List.append_assoc]
          rw [refStringBody_ascii b hb, ih rest hrest f (by omega)]
          rfl
        · cases hr : utf8RuneLen (b :: rest) with
          | none =>
            simp only [jsonEscape, hb, if_false, hr, List.length_append] at hf
            simp only [jsonEscape, toValidUTF8, hb, if_false, hr, List.append_assoc]
            have h6 : (str "\\ufffd").length = 6 := by decide
            rw [refStringBody_fffd, ih rest hrest f (by omega)]
            rfl
          | some n =>
            obtain ⟨tail, hlen, hsplit, hX⟩ := utf8RuneLen_chunk b rest n hb hr
            have hdrop : (rest.drop (n - 1)).length ≤ fuel := by
              rw [List.length_drop]
              omega
            have htake : (b :: rest).take n = b :: tail := by
              rw [← hlen, List.take_succ_cons, hsplit, List.take_left]
            by_cases h28 : (b :: rest).take 3 = [0xe2, 0x80, 0xa8]
            · have hshape : ∃ r3, b :: rest = 0xe2 :: 0x80 :: 0xa8 :: r3 := by
                cases rest with
                | nil => simp at h28
                | cons x r1 =>
                  cases r1 with
                  | nil => simp at h28
                  | cons y r2 =>
                    simp only [List.take_succ_cons, List.take_zero, List.cons.injEq, and_true] at h28
                    exact ⟨r2, by rw [h28.1, h28.2.1, h28.2.2]⟩
              obtain ⟨r3, hr3⟩ := hshape
              have hn3 : n = 3 := by
                rw [hr3] at hr
                exact utf8RuneLen_e2 _ _ _ _ hr
              have hesc : str "\\u2028" = [0x5c, 0x75, 0x32, 0x30, 0x32, 0x38] := by decide
              simp only [jsonEscape, hb, if_false, hr, h28, if_true, List.length_append, hesc,
                List.length_cons, List.length_nil] at hf
              simp only [jsonEscape, toValidUTF8, hb, if_false, hr, h28, if_true, List.append_assoc,
                hesc, List.cons_append, List.nil_append]
              rw [refStringBody_u202x f _ 0xa8 0x38 8 (by decide) (Or.inl rfl) (by decide),
                ih _ (by simpa [hn3] using hdrop) f (by omega)]
              simp [hn3, h28]
            · by_cases h29 : (b :: rest).take 3 = [0xe2, 0x80, 0xa9]
              · have hshape : ∃ r3, b :: rest = 0xe2 :: 0x80 :: 0xa9 :: r3 := by
                  cases rest with
                  | nil => simp at h29
                  | cons x r1 =>
                    cases r1 with
                    | nil => simp at h29
                    | cons y r2 =>
                      simp only [List.take_succ_cons, List.take_zero, List.cons.injEq,
                        and_true] at h29
                      exact ⟨r2, by rw [h29.1, h29.2.1, h29.2.2]⟩
                obtain ⟨r3, hr3⟩ := hshape
                have hn3 : n = 3 := by
                  rw [hr3] at hr
                  exact utf8RuneLen_e2 _ _ _ _ hr
                have hesc : str "\\u2029" = [0x5c, 0x75, 0x32, 0x30, 0x32, 0x39] := by decide
                have hdiff : ¬ ([0xe2, 0x80, 0xa9] : GoString) = [0xe2, 0x80, 0xa8] := by decide
                simp only [jsonEscape, hb, if_false, hr, h29, hdiff, if_true,
                  List.length_append, hesc, List.length_cons, List.length_nil] at hf
                simp only [jsonEscape, toValidUTF8, hb, if_false, hr, h29, hdiff, if_true,
                  List.append_assoc, hesc, List.cons_append, List.nil_append]
                rw [refStringBody_u202x f _ 0xa9 0x39 9 (by decide) (Or.inr rfl) (by decide),
                  ih _ (by simpa [hn3] using hdrop) f (by omega)]
                simp [hn3, h29]
              · have hl : ((b :: rest).take n).length = n := by
                  rw [htake, List.length_cons, hlen]
                simp only [jsonEscape, hb, if_false, hr, h28, h29, List.length_append, hl] at hf
                simp only [jsonEscape, toValidUTF8, hb, if_false, hr, h28, h29, List.append_assoc]
                rw [refStringBody_chunk b rest n f _ hb hr, ih _ hdrop f (by omega)]
                rfl

/-- The decoder of strings reads back what `jsonString` wrote. -/
theorem refStringBody_jsonString (s t : GoString) :
    ∃ body, jsonString s ++ t = 0x22 :: body ∧
      refStringBody body.length body = some (jsonCoerce s, t) := by
  refine ⟨jsonEscape s.length s ++ 0x22 :: t, by simp [jsonString], ?_⟩
  exact refStringBody_jsonEscape s.length s (le_refl _) _ t (by simp)

/-- Bytes that stand for themselves in a JSON string. -/
theorem refStringBody_plain (s t : GoString) (f : Nat) (hf : s.length < f)
    (hs : ∀ c ∈ s, c ≠ 0x22 ∧ ¬ c < 0x20 ∧ c ≠ 0x5c ∧ c < 0x80) :
    refStringBody f (s ++ 0x22 :: t) = some (s, t) := by
  induction s generalizing f with
  | nil =>
    cases f with
    | zero => simp at hf
    | succ f => exact refStringBody_quote f t
  | cons c cs ih =>
    cases f with
    | zero => simp at hf
    | succ f =>
      obtain ⟨h22, h20, h5c, h80⟩ := hs c (List.mem_cons_self _ _)
      have hcs := ih f (by simpa using hf) (fun x hx => hs x (List.mem_cons_of_mem _ hx))
      show refStringBody (f + 1) (c :: (cs ++ 0x22 :: t)) = _
      simp only [refStringBody, h22, h20, h5c, h80, if_false, if_true, hcs]
      rfl

/-- Coercion leaves well-formed UTF-8 as it is. -/
theorem toValidUTF8_of_valid (fuel : Nat) (s : GoString) (h : utf8ValidAux fuel s = true) :
    toValidUTF8 fuel s = s := by
  induction fuel generalizing s with
  | zero =>
    cases s with
    | nil => rfl
    | cons b rest => simp [utf8ValidAux] at h
  | succ fuel ih =>
    cases s with
    | nil => rfl
    | cons b rest =>
      simp only [utf8ValidAux] at h
      cases hr : utf8RuneLen (b :: rest) with
      | none => simp [hr] at h
      | some n =>
        rw [hr] at h
        simp only at h
        by_cases hb : b < 0x80
        · have h1 : n = 1 := by
            simp only [utf8RuneLen, hb, if_true] at hr
            exact (Option.some.inj hr).symm
          rw [h1] at h
          simp only [toValidUTF8, hb, if_true]
          rw [ih rest (by simpa using h)]
        · obtain ⟨tail, hlen, hsplit, -⟩ := utf8RuneLen_chunk b rest n hb hr
          have htake : (b :: rest).take n = b :: tail := by
            rw [← hlen, List.take_succ_cons, hsplit, List.take_left]
          simp only [toValidUTF8, hb, if_false, hr, htake, ih _ h]
          rw [List.cons_append, ← hsplit]

theorem jsonCoerce_of_valid (s : GoString) (h : utf8Valid s = true) : jsonCoerce s = s :=
  toValidUTF8_of_valid s.length s h

/-! ## Objects: decoding what was encoded -/

theorem skipWS_cons (c : UInt8) (t : GoString)
    (h : c ≠ 0x20 ∧ c ≠ 0x09 ∧ c ≠ 0x0a ∧ c ≠ 0x0d) : skipWS (c :: t) = c :: t := by
  simp [skipWS, List.dropWhile_cons, h.1, h.2.1, h.2.2.1, h.2.2.2]

theorem isDigit_bounds (c : UInt8) (h : isDigit c = true) : 48 ≤ c.toNat ∧ c.toNat ≤ 57 := by
  simp only [isDigit, digitVal] at h
  split_ifs at h with hh
  · exact hh
  · simp at h

theorem plain_of_isDigit (c : UInt8) (h : isDigit c = true) :
    c ≠ 0x22 ∧ ¬ c < 0x20 ∧ c ≠ 0x5c ∧ c < 0x80 := by
  simp only [isDigit, digitVal] at h
  split_ifs at h with hh
  · obtain ⟨h1, h2⟩ := hh
    have e1 : 48 ≤ c.toNat := h1
    have e2 : c.toNat ≤ 57 := h2
    refine ⟨?_, ?_, ?_, ?_⟩
    · intro e
      rw [e] at e1
      exact absurd e1 (by decide)
    · intro e
      have e3 : c.toNat < 32 := e
      omega
    · intro e
      rw [e] at e2
      exact absurd e2 (by decide)
    · show c.toNat < 128
      omega
  · simp at h

theorem formatRFC3339Nano_plain (t : Time) (s : GoString) (h : formatRFC3339Nano t = some s) :
    ∀ c ∈ s, c ≠ 0x22 ∧ ¬ c < 0x20 ∧ c ≠ 0x5c ∧ c < 0x80 := by
  unfold formatRFC3339Nano at h
  simp only at h
  rcases hciv : civilFromDays (t.unixNano / 10 ^ 9 / 86400) with ⟨Y, M, D⟩
  rw [hciv] at h
  simp only at h
  split_ifs at h with hy
  have hs := (Option.some.inj h).symm
  intro c hc
  have hd : ∀ n v, ∀ x ∈ digitsFixed n v, x ≠ 0x22 ∧ ¬ x < 0x20 ∧ x ≠ 0x5c ∧ x < 0x80 :=
    fun n v x hx => plain_of_isDigit x (digitsFixed_digits n v x hx)
  rw [hs] at hc
  simp only [List.mem_append, List.mem_cons, List.mem_singleton, List.not_mem_nil, or_false, or_assoc] at hc
  rcases hc with hc | hc | hc | hc | hc | hc | hc | hc | hc | hc | hc | hc | hc
  · exact hd _ _ _ hc
  · subst hc; decide
  · exact hd _ _ _ hc
  · subst hc; decide
  · exact hd _ _ _ hc
  · subst hc; decide
  · exact hd _ _ _ hc
  · subst hc; decide
  · exact hd _ _ _ hc
  · subst hc; decide
  · exact hd _ _ _ hc
  · unfold formatFraction at hc
    split_ifs at hc
    · simp at hc
    · simp only [List.mem_cons] at hc
      rcases hc with hc | hc
      · subst hc; decide
      · exact hd _ _ _ (dropTrailingZeros_subset _ c hc)
  · subst hc; decide


theorem refScalar_quote (body : GoString) :
    refScalar (0x22 :: body)
      = (refStringBody body.length body).map (fun x => (JScalar.str x.1, x.2)) := by
  simp [refScalar]

theorem refScalar_jsonString (s t : GoString) :
    refScalar (jsonString s ++ t) = some (JScalar.str (jsonCoerce s), t) := by
  obtain ⟨body, hb, hr⟩ := refStringBody_jsonString s t
  rw [hb]
  simp [refScalar, hr]

theorem refScalar_time (tm : Time) (s t : GoString) (h : formatRFC3339Nano tm = some s) :
    refScalar (0x22 :: (s ++ [0x22]) ++ t) = some (JScalar.str s, t) := by
  have hr := refStringBody_plain s t (s ++ 0x22 :: t).length (by simp)
    (formatRFC3339Nano_plain tm s h)
  have e : 0x22 :: (s ++ [0x22]) ++ t = 0x22 :: (s ++ 0x22 :: t) := by simp
  rw [e]
  rw [refScalar_quote, hr]
  rfl

theorem refScalar_formatInt (m : Int) (c : UInt8) (t : GoString) (hc : c = 0x2c ∨ c = 0x7d) :
    refScalar (formatInt m ++ c :: t) = some (JScalar.num (formatInt m), c :: t) := by
  have hn : refNumber (formatInt m ++ c :: t) = some (formatInt m, c :: t) := by
    apply refNumber_formatInt <;> rcases hc with hc | hc <;> subst hc <;> decide
  obtain ⟨a, r, har, ha⟩ := formatInt_head m
  have hplain : a ≠ 0x22 ∧ a ≠ 0x6e ∧ a ≠ 0x74 ∧ a ≠ 0x66 := by
    rcases ha with ha | ha
    · subst ha; decide
    · have hb := isDigit_bounds a ha
      refine ⟨?_, ?_, ?_, ?_⟩ <;>
      · intro e
        rw [e] at hb
        exact absurd hb (by decide)
  rw [har] at hn ⊢
  show refScalar (a :: (r ++ c :: t)) = _
  have hn2 : refNumber (a :: (r ++ c :: t)) = some (a :: r, c :: t) := hn
  simp only [refScalar, hplain.1, hplain.2.1, hplain.2.2.1, hplain.2.2.2, if_false, hn2]
  rfl

theorem skipWS_formatInt (m : Int) (t : GoString) :
    skipWS (formatInt m ++ t) = formatInt m ++ t := by
  obtain ⟨a, r, har, ha⟩ := formatInt_head m
  rw [har]
  apply skipWS_cons
  rcases ha with ha | ha
  · subst ha; decide
  · have hb := isDigit_bounds a ha
    refine ⟨?_, ?_, ?_, ?_⟩ <;>
    · intro e
      rw [e] at hb
      exact absurd hb (by decide)

/-- One member of an object, followed by a comma or by the closing brace. The
name holds only bytes that stand for themselves, the value starts without
white space and is read as the scalar `v`. -/
theorem refMembers_member (f : Nat) (key : String) (value rest : GoString) (v : JScalar)
    (c : UInt8) (hc : c = 0x2c ∨ c = 0x7d)
    (hkey : ∀ x ∈ str key, x ≠ 0x22 ∧ ¬ x < 0x20 ∧ x ≠ 0x5c ∧ x < 0x80)
    (hws : skipWS (value ++ c :: rest) = value ++ c :: rest)
    (hv : refScalar (value ++ c :: rest) = some (v, c :: rest)) :
    refMembers (f + 1) (jsonMember key value ++ c :: rest) =
      if c = 0x2c then (refMembers f rest).map (fun x => ((str key, v) :: x.1, x.2))
      else some ([(str key, v)], rest) := by
  have e : jsonMember key value ++ c :: rest
      = 0x22 :: (str key ++ 0x22 :: (0x3a :: (value ++ c :: rest))) := by
    simp [jsonMember]
  rw [e]
  have hk := refStringBody_plain (str key) (0x3a :: (value ++ c :: rest))
    (str key ++ 0x22 :: (0x3a :: (value ++ c :: rest))).length (by simp) hkey
  have h1 : skipWS (0x22 :: (str key ++ 0x22 :: (0x3a :: (value ++ c :: rest))))
      = 0x22 :: (str key ++ 0x22 :: (0x3a :: (value ++ c :: rest))) :=
    skipWS_cons _ _ (by decide)
  have h2 : skipWS (0x3a :: (value ++ c :: rest)) = 0x3a :: (value ++ c :: rest) :=
    skipWS_cons _ _ (by decide)
  have h3 : skipWS (c :: rest) = c :: rest := by
    apply skipWS_cons
    rcases hc with hc | hc <;> subst hc <;> decide
  conv_lhs => rw [refMembers]
  simp only [h1, hk, h2, hws, hv, h3]
  rcases hc with hc | hc <;> subst hc <;> simp


theorem skipWS_quote (t : GoString) : skipWS (0x22 :: t) = 0x22 :: t :=
  skipWS_cons _ _ (by decide)

theorem skipWS_jsonString (s t : GoString) : skipWS (jsonString s ++ t) = jsonString s ++ t := by
  have e : jsonString s ++ t = 0x22 :: (jsonEscape s.length s ++ 0x22 :: t) := by
    simp [jsonString]
  rw [e]
  exact skipWS_quote _

/-- The members that `jsonMarshal` writes, read by the reference decoder. -/
theorem refMembers_marshal (lu fa : GoString) (tl tf : Time) (pn sn ls : GoString) (wm rc : Int)
    (hl : formatRFC3339Nano tl = some lu) (hf : formatRFC3339Nano tf = some fa)
    (f : Nat) (hfuel : 7 ≤ f) :
    refMembers f (jsonMember "last_update" (0x22 :: (lu ++ [0x22])) ++ 0x2c ::
      (jsonMember "fetched_at" (0x22 :: (fa ++ [0x22])) ++ 0x2c ::
      (jsonMember "project_name" (jsonString pn) ++ 0x2c ::
      (jsonMember "stack_name" (jsonString sn) ++ 0x2c ::
      (jsonMember "last_status" (jsonString ls) ++ 0x2c ::
      (jsonMember "workspace_mtime" (formatInt wm) ++ 0x2c ::
      (jsonMember "resource_count" (formatInt rc) ++ [0x7d])))))))
    = some ([(str "last_update", JScalar.str lu), (str "fetched_at", JScalar.str fa),
        (str "project_name", JScalar.str (jsonCoerce pn)),
        (str "stack_name", JScalar.str (jsonCoerce sn)),
        (str "last_status", JScalar.str (jsonCoerce ls)),
        (str "workspace_mtime", JScalar.num (formatInt wm)),
        (str "resource_count", JScalar.num (formatInt rc))], []) := by
  obtain ⟨g, rfl⟩ : ∃ g, f = g + 7 := ⟨f - 7, by omega⟩
  rw [refMembers_member (g + 6) "last_update" _ _ (JScalar.str lu) 0x2c (Or.inl rfl) (by decide)
      (skipWS_quote _) (refScalar_time tl lu _ hl),
    refMembers_member (g + 5) "fetched_at" _ _ (JScalar.str fa) 0x2c (Or.inl rfl) (by decide)
      (skipWS_quote _) (refScalar_time tf fa _ hf),
    refMembers_member (g + 4) "project_name" _ _ _ 0x2c (Or.inl rfl) (by decide)
      (skipWS_jsonString _ _) (refScalar_jsonString pn _),
    refMembers_member (g + 3) "stack_name" _ _ _ 0x2c (Or.inl rfl) (by decide)
      (skipWS_jsonString _ _) (refScalar_jsonString sn _),
    refMembers_member (g + 2) "last_status" _ _ _ 0x2c (Or.inl rfl) (by decide)
      (skipWS_jsonString _ _) (refScalar_jsonString ls _),
    refMembers_member (g + 1) "workspace_mtime" _ _ _ 0x2c (Or.inl rfl) (by decide)
      (skipWS_formatInt _ _) (refScalar_formatInt wm _ _ (Or.inl rfl)),
    refMembers_member g "resource_count" _ _ _ 0x7d (Or.inr rfl) (by decide)
      (skipWS_formatInt _ _) (refScalar_formatInt rc _ _ (Or.inr rfl))]
  simp


theorem refSetPulumiData_last_update (d : PulumiData) (v : GoString) :
    refSetPulumiData d (str "last_update", JScalar.str v)
      = (refParseTime v).map (fun t => { d with LastUpdate := t }) := by
  have h1 : keyIs (str "last_update") "last_update" = true := by decide
  simp [refSetPulumiData, h1]

theorem refSetPulumiData_fetched_at (d : PulumiData) (v : GoString) :
    refSetPulumiData d (str "fetched_at", JScalar.str v)
      = (refParseTime v).map (fun t => { d with FetchedAt := t }) := by
  have h1 : keyIs (str "fetched_at") "last_update" = false := by decide
  have h2 : keyIs (str "fetched_at") "fetched_at" = true := by decide
  simp [refSetPulumiData, h1, h2]

theorem refSetPulumiData_project_name (d : PulumiData) (v : GoString) :
    refSetPulumiData d (str "project_name", JScalar.str v) = some { d with ProjectName := v } := by
  have h1 : keyIs (str "project_name") "last_update" = false := by decide
  have h2 : keyIs (str "project_name") "fetched_at" = false := by decide
  have h3 : keyIs (str "project_name") "project_name" = true := by decide
  simp [refSetPulumiData, h1, h2, h3]

theorem refSetPulumiData_stack_name (d : PulumiData) (v : GoString) :
    refSetPulumiData d (str "stack_name", JScalar.str v) = some { d with StackName := v } := by
  have h1 : keyIs (str "stack_name") "last_update" = false := by decide
  have h2 : keyIs (str "stack_name") "fetched_at" = false := by decide
  have h3 : keyIs (str "stack_name") "project_name" = false := by decide
  have h4 : keyIs (str "stack_name") "stack_name" = true := by decide
  simp [refSetPulumiData, h1, h2, h3, h4]

theorem refSetPulumiData_last_status (d : PulumiData) (v : GoString) :
    refSetPulumiData d (str "last_status", JScalar.str v) = some { d with LastStatus := v } := by
  have h1 : keyIs (str "last_status") "last_update" = false := by decide
  have h2 : keyIs (str "last_status") "fetched_at" = false := by decide
  have h3 : keyIs (str "last_status") "project_name" = false := by decide
  have h4 : keyIs (str "last_status") "stack_name" = false := by decide
  have h5 : keyIs (str "last_status") "last_status" = true := by decide
  simp [refSetPulumiData, h1, h2, h3, h4, h5]

theorem refSetPulumiData_workspace_mtime (d : PulumiData) (lit : GoString) :
    refSetPulumiData d (str "workspace_mtime", JScalar.num lit)
      = (refInt lit).map (fun i => { d with WorkspaceMtime := i }) := by
  have h1 : keyIs (str "workspace_mtime") "workspace_mtime" = true := by decide
  simp [refSetPulumiData, h1]

theorem refSetPulumiData_resource_count (d : PulumiData) (lit : GoString) :
    refSetPulumiData d (str "resource_count", JScalar.num lit)
      = (refInt lit).map (fun i => { d with ResourceCount := i }) := by
  have h1 : keyIs (str "resource_count") "workspace_mtime" = false := by decide
  have h2 : keyIs (str "resource_count") "resource_count" = true := by decide
  simp [refSetPulumiData, h1, h2]

theorem refObject_of_members (b1 : GoString) (kvs : List (GoString × JScalar)) (t : GoString)
    (hmem : refMembers (0x22 :: b1).length (0x22 :: b1) = some (kvs, t)) :
    refObject (0x7b :: 0x22 :: b1) = some (kvs, t) := by
  unfold refObject
  rw [skipWS_cons 0x7b _ (by decide)]
  simp only
  rw [skipWS_quote]
  exact hmem

theorem refUnmarshalPulumiData_of_object (body : GoString) (kvs : List (GoString × JScalar))
    (hobj : refObject (0x7b :: body) = some (kvs, [])) :
    refUnmarshalPulumiData (0x7b :: body)
      = refFold refSetPulumiData ⟨zeroTime, zeroTime, [], [], [], 0, 0⟩ kvs := by
  have hnull : ¬ ((stringsCutPrefix (skipWS (0x7b :: body)) (str "null")).map skipWS = some []) := by
    have e : str "null" = [0x6e, 0x75, 0x6c, 0x6c] := by decide
    rw [skipWS_cons 0x7b body (by decide), e]
    simp [stringsCutPrefix]
  unfold refUnmarshalPulumiData
  rw [if_neg hnull, hobj]
  simp [skipWS]

/-- The reference decoder reads back what `jsonMarshal` wrote: the times and
the integers as they were, the strings coerced to UTF-8. -/
theorem refUnmarshalPulumiData_jsonMarshal (d : PulumiData) (raw : GoString) (hr : d.inRange)
    (h : jsonMarshal d = some raw) : refUnmarshalPulumiData raw = some d.jsonCoerced := by
  obtain ⟨lu0, fa0, pn, sn, ls, wm, rc⟩ := d
  obtain ⟨hw0, hw1, hr0, hr1⟩ := hr
  simp only at hw0 hw1 hr0 hr1
  unfold jsonMarshal at h
  simp only at h
  cases hl : formatRFC3339Nano lu0 with
  | none => simp [hl] at h
  | some lu =>
    cases hf : formatRFC3339Nano fa0 with
    | none => simp [hl, hf] at h
    | some fa =>
      rw [hl, hf] at h
      have hraw := (Option.some.inj h).symm
      have hmem := refMembers_marshal lu fa lu0 fa0 pn sn ls wm rc hl hf
      rw [hraw]
      rw [refUnmarshalPulumiData_of_object _ _ (by
        have e : jsonMember "last_update" (0x22 :: (lu ++ [0x22])) ++ 0x2c ::
            (jsonMember "fetched_at" (0x22 :: (fa ++ [0x22])) ++ 0x2c ::
            (jsonMember "project_name" (jsonString pn) ++ 0x2c ::
            (jsonMember "stack_name" (jsonString sn) ++ 0x2c ::
            (jsonMember "last_status" (jsonString ls) ++ 0x2c ::
            (jsonMember "workspace_mtime" (formatInt wm) ++ 0x2c ::
            (jsonMember "resource_count" (formatInt rc) ++ [0x7d]))))))
            = 0x22 :: (str "last_update" ++ 0x22 :: 0x3a :: (0x22 :: (lu ++ [0x22])) ++ 0x2c ::
            (jsonMember "fetched_at" (0x22 :: (fa ++ [0x22])) ++ 0x2c ::
            (jsonMember "project_name" (jsonString pn) ++ 0x2c ::
            (jsonMember "stack_name" (jsonString sn) ++ 0x2c ::
            (jsonMember "last_status" (jsonString ls) ++ 0x2c ::
            (jsonMember "workspace_mtime" (formatInt wm) ++ 0x2c ::
            (jsonMember "resource_count" (formatInt rc) ++ [0x7d]))))))) := rfl
        rw [e]
        apply refObject_of_members
        rw [← e]
        apply hmem
        simp only [jsonMember, List.length_append, List.length_cons, List.length_nil]
        omega)]
      simp only [refFold, refSetPulumiData_last_update, refSetPulumiData_fetched_at,
        refSetPulumiData_project_name, refSetPulumiData_stack_name, refSetPulumiData_last_status,
        refSetPulumiData_workspace_mtime, refSetPulumiData_resource_count,
        refParseTime_format lu0 lu hl, refParseTime_format fa0 fa hf,
        refInt_formatInt wm hw0 hw1, refInt_formatInt rc hr0 hr1, Option.map_some']
      rfl

/-- The reference library keeps the contract of `encoding/json`. -/
theorem refLib_lawful : refLib.Lawful where
  unmarshal_marshal := refUnmarshalPulumiData_jsonMarshal

/-! ## The snapshot store -/

theorem timeSince_gt_cacheTTL (now t : Time) :
    timeSince now t > cacheTTL ↔ now.unixNano - t.unixNano > 30 * 10 ^ 9 := by
  unfold timeSince cacheTTL
  norm_num
  split_ifs <;> omega

theorem writeFile_files_same (fs : FS) (path data : GoString) (hw : fs.writable path = true) :
    (fs.writeFile path data).files path = some data := by
  simp [FS.writeFile, hw]

theorem readCache_of_file (L : GoLib) (E : Env) (fs : FS) (now : Time) (cwd raw : GoString)
    (f : Int) (c : PulumiData) (hfile : fs.files (cacheFilePath E cwd) = some raw)
    (hdec : L.unmarshalPulumiData raw = some c) :
    readCache L E fs now cwd f =
      if c.WorkspaceMtime ≠ f then none
      else if now.unixNano - c.FetchedAt.unixNano > 30 * 10 ^ 9 then none else some c := by
  unfold readCache
  rw [hfile]
  simp only [hdec]
  by_cases h1 : c.WorkspaceMtime ≠ f
  · rw [if_pos h1, if_pos h1]
  · rw [if_neg h1, if_neg h1]
    by_cases h2 : timeSince now c.FetchedAt > cacheTTL
    · rw [if_pos h2, if_pos ((timeSince_gt_cacheTTL now c.FetchedAt).mp h2)]
    · rw [if_neg h2, if_neg (fun h => h2 ((timeSince_gt_cacheTTL now c.FetchedAt).mpr h))]

theorem readCache_eq_some (L : GoLib) (E : Env) (fs : FS) (now : Time) (cwd : GoString)
    (f : Int) (s : PulumiData) (h : readCache L E fs now cwd f = some s) :
    ∃ raw, fs.files (cacheFilePath E cwd) = some raw ∧ L.unmarshalPulumiData raw = some s ∧
      s.WorkspaceMtime = f ∧ now.unixNano - s.FetchedAt.unixNano ≤ 30 * 10 ^ 9 := by
  cases hfile : fs.files (cacheFilePath E cwd) with
  | none => simp [readCache, hfile] at h
  | some raw =>
    cases hc : L.unmarshalPulumiData raw with
    | none => simp [readCache, hfile, hc] at h
    | some c =>
      rw [readCache_of_file L E fs now cwd raw f c hfile hc] at h
      split_ifs at h with h1 h2
      have hcs : c = s := Option.some.inj h
      subst hcs
      exact ⟨raw, rfl, hc, not_not.mp h1, not_lt.mp h2⟩

theorem writeCache_files (E : Env) (fs : FS) (cwd raw : GoString) (d : PulumiData)
    (hraw : jsonMarshal d = some raw) (hw : fs.writable (cacheFilePath E cwd) = true) :
    (writeCache E fs cwd d).files (cacheFilePath E cwd) = some raw := by
  unfold writeCache
  rw [hraw]
  exact writeFile_files_same fs _ raw hw

/-- C1. A snapshot that `writeCache` wrote with fingerprint `f1` is rejected
by `readCache` under every other fingerprint `f2`, whatever its `FetchedAt`
and the time of reading are. (`hraw` and `hw`: the snapshot was written;
`hrange`: its integers are 64-bit values.) -/
theorem readCache_rejects_other_fingerprint (L : GoLib) (hL : L.Lawful) (E : Env) (fs : FS)
    (now : Time) (cwd raw : GoString) (d : PulumiData) (f2 : Int) (hrange : d.inRange)
    (hraw : jsonMarshal d = some raw) (hw : fs.writable (cacheFilePath E cwd) = true)
    (hne : d.WorkspaceMtime ≠ f2) :
    readCache L E (writeCache E fs cwd d) now cwd f2 = none := by
  rw [readCache_of_file L E _ now cwd raw f2 d.jsonCoerced (writeCache_files E fs cwd raw d hraw hw)
    (hL.unmarshal_marshal d raw hrange hraw), if_pos]
  exact hne

/-- C2. A cached snapshot whose `FetchedAt` lies more than 30 seconds before
the time of reading is rejected by `readCache`, also under the very
fingerprint it stores. -/
theorem readCache_rejects_expired (L : GoLib) (E : Env) (fs : FS) (now : Time)
    (cwd raw : GoString) (c : PulumiData)
    (hfile : fs.files (cacheFilePath E cwd) = some raw)
    (hdec : L.unmarshalPulumiData raw = some c)
    (hold : now.unixNano - c.FetchedAt.unixNano > 30 * 10 ^ 9) :
    readCache L E fs now cwd c.WorkspaceMtime = none := by
  rw [readCache_of_file L E fs now cwd raw _ c hfile hdec, if_neg (by simp), if_pos hold]

/-- C3, as amended. When `writeCache` wrote the snapshot `d` (`hraw`, `hw`;
`hrange`: its integers are 64-bit values) and `d.FetchedAt` is at most 30
seconds before the time of reading, `readCache` under `d.WorkspaceMtime`
returns `d` with its strings coerced to UTF-8, every other field as it was;
that is `d` itself, equal in every field, when `ProjectName`, `StackName` and
`LastStatus` are well-formed UTF-8. -/
theorem readCache_writeCache_roundtrip (L : GoLib) (hL : L.Lawful) (E : Env) (fs : FS)
    (now : Time) (cwd raw : GoString) (d : PulumiData) (hrange : d.inRange)
    (hraw : jsonMarshal d = some raw) (hw : fs.writable (cacheFilePath E cwd) = true)
    (hfresh : now.unixNano - d.FetchedAt.unixNano ≤ 30 * 10 ^ 9) :
    readCache L E (writeCache E fs cwd d) now cwd d.WorkspaceMtime = some d.jsonCoerced ∧
    (utf8Valid d.ProjectName = true ∧ utf8Valid d.StackName = true ∧
        utf8Valid d.LastStatus = true →
      readCache L E (writeCache E fs cwd d) now cwd d.WorkspaceMtime = some d) := by
  have h : readCache L E (writeCache E fs cwd d) now cwd d.WorkspaceMtime = some d.jsonCoerced := by
    rw [readCache_of_file L E _ now cwd raw _ d.jsonCoerced
      (writeCache_files E fs cwd raw d hraw hw) (hL.unmarshal_marshal d raw hrange hraw),
      if_neg (fun hne => hne rfl)]
    exact if_neg (not_lt.mpr hfresh)
  refine ⟨h, ?_⟩
  rintro ⟨hp, hs, hl⟩
  rw [h]
  simp only [PulumiData.jsonCoerced, jsonCoerce_of_valid _ hp, jsonCoerce_of_valid _ hs,
    jsonCoerce_of_valid _ hl]

set_option maxRecDepth 100000 in
theorem exampleRaw_marshal : jsonMarshal exampleSnapshot = some exampleRaw := by decide!

set_option maxRecDepth 100000 in
theorem exampleRaw_unmarshal : refLib.unmarshalPulumiData exampleRaw = some exampleSnapshot := by
  decide!

set_option maxRecDepth 100000 in
theorem invalidUTF8Raw_marshal : jsonMarshal snapshotInvalidUTF8 = some invalidUTF8Raw := by
  decide!

theorem exampleSnapshot_inRange : exampleSnapshot.inRange := by
  simp only [PulumiData.inRange, exampleSnapshot]
  norm_num

theorem snapshotInvalidUTF8_inRange : snapshotInvalidUTF8.inRange := exampleSnapshot_inRange

/-- C1 at the data of the round-trip test: written with fingerprint
1234567890 and read under 2000, ten seconds after the fetch. -/
theorem readCache_rejects_other_fingerprint_witness :
    readCache refLib exampleEnv (writeCache exampleEnv exampleFS (str "/work/app") exampleSnapshot)
      exampleNow (str "/work/app") 2000 = none :=
  readCache_rejects_other_fingerprint refLib refLib_lawful exampleEnv exampleFS exampleNow
    (str "/work/app") exampleRaw exampleSnapshot 2000 exampleSnapshot_inRange exampleRaw_marshal rfl
    (by decide)

/-- C2 at a file holding the example snapshot, read 31 seconds after the
fetch under the stored fingerprint. -/
theorem readCache_rejects_expired_witness :
    readCache refLib exampleEnv ⟨fun _ => some exampleRaw, fun _ => true⟩
      ⟨1736937091000000000⟩ (str "/work/app") 1234567890 = none :=
  readCache_rejects_expired refLib exampleEnv ⟨fun _ => some exampleRaw, fun _ => true⟩
    ⟨1736937091000000000⟩ (str "/work/app") exampleRaw exampleSnapshot rfl exampleRaw_unmarshal
    (by decide)

/-- C3 as amended, at the data of the round-trip test read ten seconds after
the fetch. -/
theorem readCache_writeCache_roundtrip_witness :
    readCache refLib exampleEnv (writeCache exampleEnv exampleFS (str "/work/app") exampleSnapshot)
      exampleNow (str "/work/app") 1234567890 = some exampleSnapshot :=
  (readCache_writeCache_roundtrip refLib refLib_lawful exampleEnv exampleFS exampleNow
    (str "/work/app") exampleRaw exampleSnapshot exampleSnapshot_inRange exampleRaw_marshal rfl
    (by decide)).2 (by decide)

/-- C3 as stated fails. The snapshot `snapshotInvalidUTF8`, whose project name
is the byte `FF`, is written (`json.Marshal` succeeds, the file is writable)
and read ten seconds after it was fetched, under its own fingerprint; yet with
no decoder that keeps the contract of `encoding/json` does `readCache` return
it, and with the reference decoder what comes back has U+FFFD for the project
name. -/
theorem readCache_writeCache_not_exact :
    jsonMarshal snapshotInvalidUTF8 = some invalidUTF8Raw ∧
    exampleFS.writable (cacheFilePath exampleEnv (str "/work/app")) = true ∧
    exampleNow.unixNano - snapshotInvalidUTF8.FetchedAt.unixNano ≤ 30 * 10 ^ 9 ∧
    (¬ ∃ L : GoLib, L.Lawful ∧
      readCache L exampleEnv (writeCache exampleEnv exampleFS (str "/work/app") snapshotInvalidUTF8)
        exampleNow (str "/work/app") snapshotInvalidUTF8.WorkspaceMtime = some snapshotInvalidUTF8) ∧
    readCache refLib exampleEnv
        (writeCache exampleEnv exampleFS (str "/work/app") snapshotInvalidUTF8)
        exampleNow (str "/work/app") snapshotInvalidUTF8.WorkspaceMtime
      = some { snapshotInvalidUTF8 with ProjectName := [0xef, 0xbf, 0xbd] } := by
  have hfile := writeCache_files exampleEnv exampleFS (str "/work/app") invalidUTF8Raw
    snapshotInvalidUTF8 invalidUTF8Raw_marshal rfl
  have hread : ∀ L : GoLib, L.Lawful →
      readCache L exampleEnv (writeCache exampleEnv exampleFS (str "/work/app") snapshotInvalidUTF8)
        exampleNow (str "/work/app") snapshotInvalidUTF8.WorkspaceMtime
      = some { snapshotInvalidUTF8 with ProjectName := [0xef, 0xbf, 0xbd] } := by
    intro L hL
    rw [readCache_of_file L exampleEnv _ exampleNow _ invalidUTF8Raw _ _ hfile
      (hL.unmarshal_marshal _ _ snapshotInvalidUTF8_inRange invalidUTF8Raw_marshal)]
    decide
  refine ⟨invalidUTF8Raw_marshal, rfl, by decide, ?_, hread refLib refLib_lawful⟩
  rintro ⟨L, hL, h⟩
  rw [hread L hL] at h
  exact absurd h (by decide)

/-! ## The orchestrator -/

theorem runPulumi_fs (P : Pulumi) (w : World) (cwd : GoString) (args : List GoString) :
    (runPulumi P w cwd args).2.fs = w.fs := by
  unfold runPulumi
  simp only []
  split_ifs <;> rfl

theorem runPulumi_calls (P : Pulumi) (w : World) (cwd : GoString) (args : List GoString) :
    (runPulumi P w cwd args).2.calls = w.calls ++ [args ++ [str "--cwd", cwd]] := by
  unfold runPulumi
  simp only []
  split_ifs <;> rfl

theorem fillStackListData_fs (L : GoLib) (P : Pulumi) (w : World) (cwd : GoString) :
    (fillStackListData L P w cwd).2.fs = w.fs := by
  have h := runPulumi_fs P w cwd [str "stack", str "ls", str "--json"]
  unfold fillStackListData
  split
  · next w1 heq => rw [heq] at h; exact h
  · next out w1 heq =>
    rw [heq] at h
    split <;> exact h

theorem fillStackListData_calls (L : GoLib) (P : Pulumi) (w : World) (cwd : GoString) :
    (fillStackListData L P w cwd).2.calls
      = w.calls ++ [[str "stack", str "ls", str "--json", str "--cwd", cwd]] := by
  have h := runPulumi_calls P w cwd [str "stack", str "ls", str "--json"]
  unfold fillStackListData
  split
  · next w1 heq => rw [heq] at h; exact h
  · next out w1 heq =>
    rw [heq] at h
    split <;> exact h

theorem fillHistoryStatus_fs (L : GoLib) (P : Pulumi) (w : World) (cwd : GoString)
    (data : PulumiData) : (fillHistoryStatus L P w cwd data).2.fs = w.fs := by
  have h := runPulumi_fs P w cwd
    [str "stack", str "history", str "--json", str "--page-size", str "1"]
  unfold fillHistoryStatus
  split
  · next w1 heq => rw [heq] at h; exact h
  · next out w1 heq =>
    rw [heq] at h
    split <;> exact h

/-- C4. When `readCache` returns a snapshot `s` under the fingerprint computed
for the directory, `getPulumiData` returns exactly `s` and leaves the world as
it was, whatever the `pulumi` executable would do: no subprocess is recorded
and no file changes. -/
theorem getPulumiData_cache_hit (L : GoLib) (E : Env) (w : World) (cwd : GoString) (s : PulumiData)
    (hhit : readCache L E w.fs w.now cwd (workspaceMtime E w.fs cwd) = some s) :
    ∀ P : Pulumi, getPulumiData L E P w cwd = (some s, w) := by
  intro P
  simp only [getPulumiData, hhit]

theorem extractStackName_some (name : GoString) : ∃ r, extractStackName name = some r := by
  obtain ⟨init, r, p, hsplit, -⟩ := stringsSplit_shape 0x2f name
  exact ⟨r, by simp [extractStackName, hsplit]⟩

theorem stackListCurrent_cons_current (L : GoLib) (now : Time) (e : StackListEntry)
    (rest : List StackListEntry) (name : GoString) (hcur : e.Current = true)
    (hname : extractStackName e.Name = some name) :
    stackListCurrent L now (e :: rest) =
      some ⟨if e.LastUpdate = [] then zeroTime else (L.timeParseRFC3339 e.LastUpdate).getD zeroTime,
        now, [], name, [], 0, e.ResourceCount⟩ := by
  by_cases hlu : e.LastUpdate = []
  · simp [stackListCurrent, hcur, hname, hlu]
  · cases hp : L.timeParseRFC3339 e.LastUpdate <;> simp [stackListCurrent, hcur, hname, hlu, hp]

theorem stackListCurrent_of_current (L : GoLib) (now : Time) (e : StackListEntry)
    (rest : List StackListEntry) (hempty : L.timeParseRFC3339 [] = none)
    (hcur : e.Current = true) :
    ∃ d name, stackListCurrent L now (e :: rest) = some d ∧ extractStackName e.Name = some name ∧
      d.StackName = name ∧ d.ResourceCount = e.ResourceCount ∧ d.LastStatus = [] ∧
      (∀ t, L.timeParseRFC3339 e.LastUpdate = some t → d.LastUpdate = t) ∧
      (e.LastUpdate = [] ∨ L.timeParseRFC3339 e.LastUpdate = none → d.LastUpdate = zeroTime) := by
  obtain ⟨name, hname⟩ := extractStackName_some e.Name
  refine ⟨_, name, stackListCurrent_cons_current L now e rest name hcur hname, hname, rfl, rfl, rfl,
    ?_, ?_⟩
  · intro t ht
    have hne : e.LastUpdate ≠ [] := by
      intro h
      rw [h, hempty] at ht
      cases ht
    simp [hne, ht]
  · intro h
    rcases h with h | h
    · simp [h]
    · simp [h]

theorem stackListCurrent_status (L : GoLib) (now : Time) (es : List StackListEntry)
    (d : PulumiData) (h : stackListCurrent L now es = some d) : d.LastStatus = [] := by
  induction es with
  | nil => simp [stackListCurrent] at h
  | cons e rest ih =>
    cases hcur : e.Current with
    | false =>
      apply ih
      simpa [stackListCurrent, hcur] using h
    | true =>
      obtain ⟨name, hname⟩ := extractStackName_some e.Name
      rw [stackListCurrent_cons_current L now e rest name hcur hname] at h
      cases h
      rfl

theorem stackListCurrent_skip (L : GoLib) (now : Time) (pre rest : List StackListEntry)
    (hpre : ∀ x ∈ pre, x.Current = false) :
    stackListCurrent L now (pre ++ rest) = stackListCurrent L now rest := by
  induction pre with
  | nil => rfl
  | cons x xs ih =>
    have hx : x.Current = false := hpre x (List.mem_cons_self _ _)
    have hxs : ∀ y ∈ xs, y.Current = false := fun y hy => hpre y (List.mem_cons_of_mem _ hy)
    simp [stackListCurrent, hx, ih hxs]

theorem stackListCurrent_eq_none (L : GoLib) (now : Time) (es : List StackListEntry) :
    stackListCurrent L now es = none ↔ ∀ e ∈ es, e.Current = false := by
  induction es with
  | nil => simp [stackListCurrent]
  | cons e rest ih =>
    cases hcur : e.Current with
    | false =>
      have hstep : stackListCurrent L now (e :: rest) = stackListCurrent L now rest := by
        simp [stackListCurrent, hcur]
      rw [hstep, ih]
      simp [hcur]
    | true =>
      obtain ⟨name, hname⟩ := extractStackName_some e.Name
      simp [stackListCurrent_cons_current L now e rest name hcur hname, hcur]

theorem fillStackListData_eq (L : GoLib) (P : Pulumi) (w : World) (cwd : GoString) :
    (fillStackListData L P w cwd).1 =
      if commandTimeout ≤ (P (stackLsArgs cwd)).nanos ∨ (P (stackLsArgs cwd)).exitOk = false then none
      else
        match L.unmarshalStackList (P (stackLsArgs cwd)).stdout with
        | none => none
        | some es =>
          stackListCurrent L ⟨w.now.unixNano + min (P (stackLsArgs cwd)).nanos commandTimeout⟩ es := by
  unfold fillStackListData runPulumi
  simp only [stackLsArgs, List.cons_append, List.nil_append]
  split_ifs with h
  · rfl
  · simp only []
    split <;> rfl

theorem fillHistoryStatus_eq (L : GoLib) (P : Pulumi) (w : World) (cwd : GoString)
    (data : PulumiData) :
    (fillHistoryStatus L P w cwd data).1 =
      if commandTimeout ≤ (P (stackHistoryArgs cwd)).nanos
          ∨ (P (stackHistoryArgs cwd)).exitOk = false then data
      else
        match L.unmarshalHistory (P (stackHistoryArgs cwd)).stdout with
        | none => data
        | some [] => data
        | some (e :: _) => { data with LastStatus := e.Result } := by
  unfold fillHistoryStatus runPulumi
  simp only [stackHistoryArgs, List.cons_append, List.nil_append]
  split_ifs with h
  · rfl
  · simp only []
    split <;> rfl

/-! ## C8: what the primary query yields -/

/-- C8. When `pulumi stack ls --json` ran and its output was decoded into
`entries`, `fillStackListData` returns nothing exactly when no entry is
flagged current; otherwise the snapshot comes from the first entry flagged
current: `StackName` is `extractStackName` of its name, `ResourceCount` its
resource count, and `LastUpdate` the RFC 3339 parse of its `lastUpdate` when
that succeeds and the zero time when `lastUpdate` is empty or does not parse.
(`hempty`: `time.Parse` rejects the empty string.) -/
theorem fillStackListData_first_current (L : GoLib) (P : Pulumi) (w : World) (cwd : GoString)
    (entries : List StackListEntry) (hempty : L.timeParseRFC3339 [] = none)
    (hok : (P (stackLsArgs cwd)).exitOk = true)
    (htime : (P (stackLsArgs cwd)).nanos < commandTimeout)
    (hdec : L.unmarshalStackList (P (stackLsArgs cwd)).stdout = some entries) :
    ((fillStackListData L P w cwd).1 = none ↔ ∀ e ∈ entries, e.Current = false) ∧
    ∀ pre e post, entries = pre ++ e :: post → (∀ x ∈ pre, x.Current = false) →
      e.Current = true →
      ∃ d name, (fillStackListData L P w cwd).1 = some d ∧
        extractStackName e.Name = some name ∧ d.StackName = name ∧
        d.ResourceCount = e.ResourceCount ∧
        (∀ t, L.timeParseRFC3339 e.LastUpdate = some t → d.LastUpdate = t) ∧
        (e.LastUpdate = [] ∨ L.timeParseRFC3339 e.LastUpdate = none → d.LastUpdate = zeroTime) := by
  have hres : (fillStackListData L P w cwd).1 =
      stackListCurrent L ⟨w.now.unixNano + min (P (stackLsArgs cwd)).nanos commandTimeout⟩
        entries := by
    rw [fillStackListData_eq, if_neg (by simp [hok, htime]), hdec]
  rw [hres]
  refine ⟨stackListCurrent_eq_none L _ entries, ?_⟩
  intro pre e post hsplit hpre hcur
  rw [hsplit, stackListCurrent_skip L _ pre (e :: post) hpre]
  obtain ⟨d, name, hd, hname, h1, h2, -, h3, h4⟩ :=
    stackListCurrent_of_current L _ e post hempty hcur
  exact ⟨d, name, hd, hname, h1, h2, h3, h4⟩

/-! ## C5 and C6: failures of the two queries -/

/-- C5. On a cache miss, when the primary query fails (the command exits
with an error or runs into the timeout, its output is not decoded, or no
entry is flagged current), `getPulumiData` returns nothing and every file,
the cache file included, is as it was: nothing is written. Only the one
subprocess was run. -/
theorem getPulumiData_primary_failure (L : GoLib) (E : Env) (P : Pulumi) (w : World)
    (cwd : GoString)
    (hmiss : readCache L E w.fs w.now cwd (workspaceMtime E w.fs cwd) = none)
    (hfail : (P (stackLsArgs cwd)).exitOk = false ∨ commandTimeout ≤ (P (stackLsArgs cwd)).nanos ∨
      L.unmarshalStackList (P (stackLsArgs cwd)).stdout = none ∨
      ∃ es, L.unmarshalStackList (P (stackLsArgs cwd)).stdout = some es ∧
        ∀ e ∈ es, e.Current = false) :
    (getPulumiData L E P w cwd).1 = none ∧ (getPulumiData L E P w cwd).2.fs = w.fs ∧
      (getPulumiData L E P w cwd).2.calls = w.calls ++ [stackLsArgs cwd] := by
  have hnone : (fillStackListData L P w cwd).1 = none := by
    rw [fillStackListData_eq]
    rcases hfail with h | h | h | ⟨es, h, hes⟩
    · rw [if_pos (Or.inr h)]
    · rw [if_pos (Or.inl h)]
    · split_ifs
      · rfl
      · rw [h]
    · split_ifs
      · rfl
      · rw [h]
        exact (stackListCurrent_eq_none L _ es).mpr hes
  have hfs := fillStackListData_fs L P w cwd
  have hcalls := fillStackListData_calls L P w cwd
  rcases hfill : fillStackListData L P w cwd with ⟨_ | d, w1⟩
  · rw [hfill] at hfs hcalls
    have hg : getPulumiData L E P w cwd = (none, w1) := by
      simp only [getPulumiData, hmiss, hfill]
    rw [hg]
    exact ⟨rfl, hfs, hcalls⟩
  · rw [hfill] at hnone
    cases hnone

theorem writeCache_of_failure (E : Env) (fs : FS) (cwd : GoString) (d : PulumiData)
    (h : (jsonMarshal d).isSome = false ∨ fs.writable (cacheFilePath E cwd) = false) :
    writeCache E fs cwd d = fs := by
  unfold writeCache
  cases hm : jsonMarshal d with
  | none => rfl
  | some raw =>
    rcases h with h | h
    · simp [hm] at h
    · simp [FS.writeFile, h]

/-- C6, as amended. On a cache miss, when the primary query yields the
snapshot `d0` and the secondary query fails (the command exits with an error
or runs into the timeout, its output is not decoded, or the list is empty),
`getPulumiData` still returns a snapshot: its `LastStatus` is empty, its
`StackName`, `ResourceCount`, `LastUpdate` (and `FetchedAt`) are those of
`d0`, it carries the project name and the fingerprint computed at the start,
and `writeCache` is called with that same snapshot. When the snapshot can be
encoded and the cache file can be written, the cache file exists afterwards
and a later `readCache` under the same fingerprint, at most 30 seconds after
`FetchedAt`, returns the snapshot (its strings coerced to UTF-8). When the
encoding or the write fails, the error is dropped and the storage stays as it
was. -/
theorem getPulumiData_history_failure (L : GoLib) (E : Env) (P : Pulumi) (w : World)
    (cwd : GoString) (d0 : PulumiData)
    (hmiss : readCache L E w.fs w.now cwd (workspaceMtime E w.fs cwd) = none)
    (hprim : (fillStackListData L P w cwd).1 = some d0)
    (hfail : (P (stackHistoryArgs cwd)).exitOk = false ∨
      commandTimeout ≤ (P (stackHistoryArgs cwd)).nanos ∨
      L.unmarshalHistory (P (stackHistoryArgs cwd)).stdout = none ∨
      L.unmarshalHistory (P (stackHistoryArgs cwd)).stdout = some []) :
    ∃ s, (getPulumiData L E P w cwd).1 = some s ∧ s.LastStatus = [] ∧
      s.StackName = d0.StackName ∧ s.ResourceCount = d0.ResourceCount ∧
      s.LastUpdate = d0.LastUpdate ∧ s.FetchedAt = d0.FetchedAt ∧
      s.ProjectName = readProjectName w.fs cwd ∧
      s.WorkspaceMtime = workspaceMtime E w.fs cwd ∧
      (getPulumiData L E P w cwd).2.fs = writeCache E w.fs cwd s ∧
      ((jsonMarshal s).isSome = true → w.fs.writable (cacheFilePath E cwd) = true →
        ((getPulumiData L E P w cwd).2.fs.files (cacheFilePath E cwd)).isSome = true ∧
        (L.Lawful → s.inRange →
          ∀ later : Time, later.unixNano - s.FetchedAt.unixNano ≤ 30 * 10 ^ 9 →
            readCache L E (getPulumiData L E P w cwd).2.fs later cwd (workspaceMtime E w.fs cwd)
              = some s.jsonCoerced)) ∧
      ((jsonMarshal s).isSome = false ∨ w.fs.writable (cacheFilePath E cwd) = false →
        (getPulumiData L E P w cwd).2.fs = w.fs) := by
  have hstatus : d0.LastStatus = [] := by
    rw [fillStackListData_eq] at hprim
    split_ifs at hprim
    split at hprim
    · cases hprim
    · exact stackListCurrent_status L _ _ d0 hprim
  have hfs := fillStackListData_fs L P w cwd
  rcases hfill : fillStackListData L P w cwd with ⟨_ | d, w1⟩
  · rw [hfill] at hprim
    cases hprim
  · rw [hfill] at hprim hfs
    simp only at hprim hfs
    cases hprim
    have hhist : ∀ data, (fillHistoryStatus L P w1 cwd data).1 = data := by
      intro data
      rw [fillHistoryStatus_eq]
      rcases hfail with h | h | h | h
      · rw [if_pos (Or.inr h)]
      · rw [if_pos (Or.inl h)]
      · split_ifs
        · rfl
        · rw [h]
      · split_ifs
        · rfl
        · rw [h]
    have hfs2 := fillHistoryStatus_fs L P w1 cwd { d0 with ProjectName := readProjectName w1.fs cwd }
    have h1 := hhist { d0 with ProjectName := readProjectName w1.fs cwd }
    rcases hh : fillHistoryStatus L P w1 cwd { d0 with ProjectName := readProjectName w1.fs cwd }
      with ⟨d2, w2⟩
    rw [hh] at hfs2 h1
    simp only at hfs2 h1
    have hg : getPulumiData L E P w cwd =
        (some { d2 with WorkspaceMtime := workspaceMtime E w.fs cwd },
          { w2 with fs := (writeCache E w2.fs cwd
              ({ d2 with WorkspaceMtime := workspaceMtime E w.fs cwd })) }) := by
      simp only [getPulumiData, hmiss, hfill, hh]
    rw [hg, h1, hfs2, hfs]
    refine ⟨_, rfl, hstatus, rfl, rfl, rfl, rfl, rfl, rfl, rfl, ?_, ?_⟩
    · intro hsome hw
      obtain ⟨raw, hraw⟩ := Option.isSome_iff_exists.mp hsome
      have hfile := writeCache_files E w.fs cwd raw _ hraw hw
      refine ⟨by simp only [hfile, Option.isSome_some], ?_⟩
      intro hL hrange later hfresh
      rw [readCache_of_file L E _ later cwd raw _ _ hfile (hL.unmarshal_marshal _ raw hrange hraw),
        if_neg (fun hne => hne rfl)]
      exact if_neg (not_lt.mpr hfresh)
    · intro h
      exact writeCache_of_failure E w.fs cwd _ h

/-! ## The theorems of the orchestrator at the example project -/

set_option maxRecDepth 1000000 in
theorem cachedWorld_hit :
    readCache refLib projectEnv cachedWorld.fs cachedWorld.now projectDir
      (workspaceMtime projectEnv cachedWorld.fs projectDir) = some projectSnapshot := by
  decide!

set_option maxRecDepth 1000000 in
theorem projectWorld_miss :
    readCache refLib projectEnv projectWorld.fs projectWorld.now projectDir
      (workspaceMtime projectEnv projectWorld.fs projectDir) = none := by
  decide!

set_option maxRecDepth 1000000 in
theorem examplePulumi_entries :
    refLib.unmarshalStackList (examplePulumi (stackLsArgs projectDir)).stdout
      = some exampleEntries := by
  decide!

set_option maxRecDepth 1000000 in
theorem examplePulumi_acquired :
    (fillStackListData refLib examplePulumi projectWorld projectDir).1 = some exampleAcquired := by
  decide!

/-- C4 at the cached project: the snapshot comes back, nothing was run and
nothing changed, here with a `pulumi` that would fail. -/
theorem getPulumiData_cache_hit_witness :
    getPulumiData refLib projectEnv failingPulumi cachedWorld projectDir
      = (some projectSnapshot, cachedWorld) :=
  getPulumiData_cache_hit refLib projectEnv cachedWorld projectDir projectSnapshot cachedWorld_hit
    failingPulumi

/-- C5 at the project without a cache file and a `pulumi` that exits with an
error. -/
theorem getPulumiData_primary_failure_witness :
    (getPulumiData refLib projectEnv failingPulumi projectWorld projectDir).1 = none ∧
    (getPulumiData refLib projectEnv failingPulumi projectWorld projectDir).2.fs = projectWorld.fs ∧
    (getPulumiData refLib projectEnv failingPulumi projectWorld projectDir).2.calls
      = projectWorld.calls ++ [stackLsArgs projectDir] :=
  getPulumiData_primary_failure refLib projectEnv failingPulumi projectWorld projectDir
    projectWorld_miss (Or.inl rfl)

set_option maxRecDepth 1000000 in
theorem projectWorld_returned :
    (getPulumiData refLib projectEnv examplePulumi projectWorld projectDir).1
      = some exampleReturned := by
  decide!

set_option maxRecDepth 1000000 in
theorem exampleReturned_marshal : (jsonMarshal exampleReturned).isSome = true := by decide!

theorem exampleReturned_inRange : exampleReturned.inRange := by
  simp only [PulumiData.inRange, exampleReturned, exampleAcquired]
  norm_num

set_option maxRecDepth 1000000 in
theorem exampleReturned_coerced : exampleReturned.jsonCoerced = exampleReturned := by decide!

/-- C6 as amended, at the project without a cache file, with a `pulumi` whose
`stack ls` succeeds and whose `stack history` exits with an error: the
snapshot `exampleReturned` comes back, the cache file exists afterwards, and
an invocation twenty seconds later reads that snapshot from it. -/
theorem getPulumiData_history_failure_witness :
    (getPulumiData refLib projectEnv examplePulumi projectWorld projectDir).1
      = some exampleReturned ∧
    exampleReturned.LastStatus = [] ∧ exampleReturned.StackName = exampleAcquired.StackName ∧
    exampleReturned.ResourceCount = exampleAcquired.ResourceCount ∧
    exampleReturned.LastUpdate = exampleAcquired.LastUpdate ∧
    exampleReturned.WorkspaceMtime = workspaceMtime projectEnv projectWorld.fs projectDir ∧
    ((getPulumiData refLib projectEnv examplePulumi projectWorld projectDir).2.fs.files
      (cacheFilePath projectEnv projectDir)).isSome = true ∧
    readCache refLib projectEnv
        (getPulumiData refLib projectEnv examplePulumi projectWorld projectDir).2.fs
        exampleLater projectDir (workspaceMtime projectEnv projectWorld.fs projectDir)
      = some exampleReturned := by
  obtain ⟨s, hs, h1, h2, h3, h4, -, -, h7, -, hwritten, -⟩ :=
    getPulumiData_history_failure refLib projectEnv examplePulumi projectWorld projectDir
      exampleAcquired projectWorld_miss examplePulumi_acquired (Or.inl rfl)
  have hse : s = exampleReturned := Option.some.inj (hs.symm.trans projectWorld_returned)
  subst hse
  obtain ⟨hfile, hread⟩ := hwritten exampleReturned_marshal rfl
  have hback := hread refLib_lawful exampleReturned_inRange exampleLater (by decide)
  rw [exampleReturned_coerced] at hback
  exact ⟨hs, h1, h2, h3, h4, h7, hfile, hback⟩

set_option maxRecDepth 1000000 in
/-- C6 as stated fails. On storage that cannot be written, the project has no
cache file, `stack ls` succeeds and `stack history` exits with an error:
`getPulumiData` returns the snapshot `exampleReturned`, yet nothing is written
to the cache. The cache file is absent afterwards, and an invocation twenty
seconds later finds no snapshot. -/
theorem getPulumiData_history_failure_not_written :
    readCache refLib projectEnv readonlyWorld.fs readonlyWorld.now projectDir
      (workspaceMtime projectEnv readonlyWorld.fs projectDir) = none ∧
    (fillStackListData refLib examplePulumi readonlyWorld projectDir).1 = some exampleAcquired ∧
    (examplePulumi (stackHistoryArgs projectDir)).exitOk = false ∧
    (getPulumiData refLib projectEnv examplePulumi readonlyWorld projectDir).1
      = some exampleReturned ∧
    (getPulumiData refLib projectEnv examplePulumi readonlyWorld projectDir).2.fs.files
      (cacheFilePath projectEnv projectDir) = none ∧
    readCache refLib projectEnv
        (getPulumiData refLib projectEnv examplePulumi readonlyWorld projectDir).2.fs
        exampleLater projectDir (workspaceMtime projectEnv readonlyWorld.fs projectDir)
      = none := by
  decide!

/-- C8 at the output of `examplePulumi`: the second entry is the one flagged
current. -/
theorem fillStackListData_first_current_witness :
    ((fillStackListData refLib examplePulumi projectWorld projectDir).1 = none ↔
      ∀ e ∈ exampleEntries, e.Current = false) ∧
    ∀ pre e post, exampleEntries = pre ++ e :: post → (∀ x ∈ pre, x.Current = false) →
      e.Current = true →
      ∃ d name, (fillStackListData refLib examplePulumi projectWorld projectDir).1 = some d ∧
        extractStackName e.Name = some name ∧ d.StackName = name ∧
        d.ResourceCount = e.ResourceCount ∧
        (∀ t, refLib.timeParseRFC3339 e.LastUpdate = some t → d.LastUpdate = t) ∧
        (e.LastUpdate = [] ∨ refLib.timeParseRFC3339 e.LastUpdate = none →
          d.LastUpdate = zeroTime) :=
  fillStackListData_first_current refLib examplePulumi projectWorld projectDir exampleEntries
    (by decide) rfl (by decide) examplePulumi_entries

/-! ## C9: the cache path and the digest -/

theorem be32_mod (x : Nat) : be32 (x % 2 ^ 32) = be32 x := by
  have h1 : x % 2 ^ 32 / 2 ^ 24 % 256 = x / 2 ^ 24 % 256 := by omega
  have h2 : x % 2 ^ 32 / 2 ^ 16 % 256 = x / 2 ^ 16 % 256 := by omega
  have h3 : x % 2 ^ 32 / 2 ^ 8 % 256 = x / 2 ^ 8 % 256 := by omega
  have h4 : x % 2 ^ 32 % 256 = x % 256 := by omega
  unfold be32
  rw [h1, h2, h3, h4]

/-- SHA-256 maps infinitely many strings to finitely many digests, so two
different strings share a digest. -/
theorem sha256Sum256_collision : ∃ a b : GoString, a ≠ b ∧ sha256Sum256 a = sha256Sum256 b := by
  have hpos : 0 < 2 ^ 32 := by norm_num
  let word : Nat → Fin (2 ^ 32) := fun x => ⟨x % 2 ^ 32, Nat.mod_lt x hpos⟩
  let f : GoString → Fin (2 ^ 32) × Fin (2 ^ 32) × Fin (2 ^ 32) × Fin (2 ^ 32) × Fin (2 ^ 32) ×
      Fin (2 ^ 32) × Fin (2 ^ 32) × Fin (2 ^ 32) := fun m =>
    (word (sha256Final m).a, word (sha256Final m).b, word (sha256Final m).c,
      word (sha256Final m).d, word (sha256Final m).e, word (sha256Final m).f,
      word (sha256Final m).g, word (sha256Final m).h)
  obtain ⟨a, b, hab, hf⟩ := Finite.exists_ne_map_eq_of_infinite f
  refine ⟨a, b, hab, ?_⟩
  simp only [f, word, Prod.mk.injEq, Fin.mk.injEq] at hf
  obtain ⟨h1, h2, h3, h4, h5, h6, h7, h8⟩ := hf
  unfold sha256Sum256 sha256Digest
  rw [← be32_mod (sha256Final a).a, ← be32_mod (sha256Final a).b, ← be32_mod (sha256Final a).c,
    ← be32_mod (sha256Final a).d, ← be32_mod (sha256Final a).e, ← be32_mod (sha256Final a).f,
    ← be32_mod (sha256Final a).g, ← be32_mod (sha256Final a).h, h1, h2, h3, h4, h5, h6, h7, h8,
    be32_mod, be32_mod, be32_mod, be32_mod, be32_mod, be32_mod, be32_mod, be32_mod]

/-- C9 as stated fails: `cacheFilePath` is not injective. Were different
directories always to get different paths, SHA-256 would have no collision. -/
theorem cacheFilePath_not_injective :
    ¬ ∀ (E : Env) (dirA dirB : GoString), dirA ≠ dirB →
      cacheFilePath E dirA ≠ cacheFilePath E dirB := by
  intro h
  obtain ⟨a, b, hab, hsum⟩ := sha256Sum256_collision
  exact h exampleEnv a b hab (by simp only [cacheFilePath, cacheFileName, hsum])

theorem stringsSplit_ne_nil (sep : UInt8) (s : GoString) : stringsSplit sep s ≠ [] := by
  obtain ⟨init, r, _, h, -⟩ := stringsSplit_shape sep s
  simp [h]

theorem stringsSplit_append_sep (sep : UInt8) (a b : GoString) :
    stringsSplit sep (a ++ sep :: b) = stringsSplit sep a ++ stringsSplit sep b := by
  induction a with
  | nil => simp [stringsSplit]
  | cons c cs ih =>
    by_cases hc : c = sep
    · simp [stringsSplit, hc, ih]
    · cases hs : stringsSplit sep cs with
      | nil => exact absurd hs (stringsSplit_ne_nil sep cs)
      | cons p ps => simp [stringsSplit, hc, ih, hs]

theorem stringsSplit_of_not_mem (sep : UInt8) (s : GoString) (h : sep ∉ s) :
    stringsSplit sep s = [s] := by
  induction s with
  | nil => rfl
  | cons c cs ih =>
    have hc : c ≠ sep := fun hc => h (by simp [hc])
    have hcs : sep ∉ cs := fun hcs => h (List.mem_cons_of_mem _ hcs)
    simp [stringsSplit, hc, ih hcs]

theorem intercalate_append_singleton (sep : GoString) (xs : List GoString) (y : GoString) :
    sep.intercalate (xs ++ [y]) = if xs = [] then y else sep.intercalate xs ++ sep ++ y := by
  induction xs with
  | nil => simp [List.intercalate]
  | cons x rest ih =>
    cases rest with
    | nil => simp [List.intercalate]
    | cons z zs =>
      simp only [List.intercalate, List.cons_append, List.intersperse, List.flatten,
        reduceCtorEq, if_false, List.append_assoc, List.append_eq] at ih ⊢
      rw [ih]

/-- A proper last element survives `filepath.Join` unchanged: the result is
a prefix, fixed by the directory, followed by the element. -/
theorem filepathJoin_last (dir : GoString) (hdir : dir ≠ []) :
    ∃ pre : GoString, ∀ name : GoString, (0x2f : UInt8) ∉ name → name ≠ [] → name ≠ str "." →
      name ≠ str ".." → filepathJoin [dir, name] = pre ++ name := by
  let rooted : Bool := dir.head? = some 0x2f
  let stack := (stringsSplit 0x2f dir).foldl (cleanStep rooted) []
  refine ⟨(if rooted then [0x2f] else []) ++
    (if stack.reverse = [] then [] else [0x2f].intercalate stack.reverse ++ [0x2f]), ?_⟩
  intro name hslash hne hdot hdotdot
  have hjoin : filepathJoin [dir, name] = filepathClean (dir ++ 0x2f :: name) := by
    cases dir with
    | nil => exact absurd rfl hdir
    | cons c cs => simp [filepathJoin, List.intercalate]
  have hhead : (dir ++ 0x2f :: name).head? = dir.head? := by
    cases dir with
    | nil => exact absurd rfl hdir
    | cons c cs => rfl
  have hstep : ∀ st, cleanStep rooted st name = name :: st := by
    intro st
    simp [cleanStep, hne, hdot, hdotdot]
  rw [hjoin]
  unfold filepathClean
  simp only [hhead, stringsSplit_append_sep, stringsSplit_of_not_mem _ _ hslash, List.foldl_append,
    List.foldl_cons, List.foldl_nil, hstep, List.reverse_cons, intercalate_append_singleton]
  by_cases hr : dir.head? = some 0x2f
  · by_cases hst : stack.reverse = []
    · simp [rooted, stack, hr] at hst ⊢
      simp [hst]
    · simp [rooted, stack, hr] at hst ⊢
      simp [hst]
  · by_cases hst : stack.reverse = []
    · simp [rooted, stack, hr] at hst ⊢
      simp [hst]
    · simp [rooted, stack, hr] at hst ⊢
      simp [hst]

theorem hexDigit_injective : ∀ m < 16, ∀ n < 16, hexDigit m = hexDigit n → m = n := by
  decide!

theorem hexDigit_ne_slash : ∀ n < 16, hexDigit n ≠ 0x2f := by
  decide!

theorem hexByte_injective (a b : UInt8) (h : hexByte a = hexByte b) : a = b := by
  have ha : a.toNat < 256 := UInt8.toNat_lt_size a
  have hb : b.toNat < 256 := UInt8.toNat_lt_size b
  simp only [hexByte, List.cons.injEq, and_true] at h
  have h1 := hexDigit_injective (a.toNat / 16) (by omega) (b.toNat / 16) (by omega) h.1
  have h2 := hexDigit_injective (a.toNat % 16) (by omega) (b.toNat % 16) (by omega) h.2
  exact UInt8.ext (by omega)

theorem hexEncode_injective (xs ys : GoString) (h : hexEncode xs = hexEncode ys) : xs = ys := by
  induction xs generalizing ys with
  | nil =>
    cases ys with
    | nil => rfl
    | cons y ys => simp [hexEncode, hexByte] at h
  | cons x xs ih =>
    cases ys with
    | nil => simp [hexEncode, hexByte] at h
    | cons y ys =>
      simp only [hexEncode, List.flatMap_cons, hexByte, List.cons_append, List.nil_append,
        List.cons.injEq] at h
      have hxy : x = y := hexByte_injective x y (by simp [hexByte, h.1, h.2.1])
      rw [hxy, ih ys h.2.2]

theorem hexEncode_no_slash (bs : GoString) : (0x2f : UInt8) ∉ hexEncode bs := by
  induction bs with
  | nil => simp [hexEncode]
  | cons b bs ih =>
    have hb : b.toNat < 256 := UInt8.toNat_lt_size b
    have h1 := hexDigit_ne_slash (b.toNat / 16) (by omega)
    have h2 := hexDigit_ne_slash (b.toNat % 16) (by omega)
    simp only [hexEncode, List.flatMap_cons, hexByte, List.cons_append, List.nil_append,
      List.mem_cons, not_or]
    exact ⟨fun h => h1 h.symm, fun h => h2 h.symm, ih⟩

theorem cacheFileName_proper (cwd : GoString) :
    (0x2f : UInt8) ∉ cacheFileName cwd ∧ cacheFileName cwd ≠ [] ∧ cacheFileName cwd ≠ str "." ∧
      cacheFileName cwd ≠ str ".." := by
  have hpre : str "pulumi-ccstatusline-" = 0x70 :: str "ulumi-ccstatusline-" := by decide
  have hp : (0x2f : UInt8) ∉ str "pulumi-ccstatusline-" := by decide
  have hs : (0x2f : UInt8) ∉ str ".json" := by decide
  refine ⟨?_, ?_, ?_, ?_⟩
  · simp only [cacheFileName, List.mem_append, not_or]
    exact ⟨⟨hp, hexEncode_no_slash _⟩, hs⟩
  · simp [cacheFileName, hpre]
  · have hd : str "." = [0x2e] := by decide
    simp [cacheFileName, hpre, hd]
  · have hd : str ".." = [0x2e, 0x2e] := by decide
    simp [cacheFileName, hpre, hd]

/-- C9, as amended. `cacheFilePath` is a function of the temporary directory
and the working-directory string, so repeated calls agree; and two directory
strings get the same path exactly when their SHA-256 digests are the same.
The directories of the test get different paths. -/
theorem cacheFilePath_eq_iff_digest (E : Env) (dirA dirB : GoString) :
    (cacheFilePath E dirA = cacheFilePath E dirB ↔ sha256Sum256 dirA = sha256Sum256 dirB) ∧
    (dirA = dirB → cacheFilePath E dirA = cacheFilePath E dirB) ∧
    cacheFilePath exampleEnv (str "/path/a") ≠ cacheFilePath exampleEnv (str "/path/b") := by
  refine ⟨⟨?_, ?_⟩, fun h => by rw [h], by decide!⟩
  · intro h
    have hdir : osTempDir E ≠ [] := by
      unfold osTempDir
      split_ifs with ht
      · decide
      · exact ht
    obtain ⟨pre, hpre⟩ := filepathJoin_last (osTempDir E) hdir
    obtain ⟨a1, a2, a3, a4⟩ := cacheFileName_proper dirA
    obtain ⟨b1, b2, b3, b4⟩ := cacheFileName_proper dirB
    unfold cacheFilePath at h
    rw [hpre _ a1 a2 a3 a4, hpre _ b1 b2 b3 b4] at h
    have hname := List.append_cancel_left h
    unfold cacheFileName at hname
    exact hexEncode_injective _ _ (List.append_cancel_left (List.append_cancel_right hname))
  · intro h
    simp only [cacheFilePath, cacheFileName, h]

end PulumiStatusline
